import Mathlib

/-!
Shallow embedding of the prompt-synthesis and detection-orchestration core of
the Penguin-Studio backend (app/detection/*, app/services/prompt_service.py,
app/services/segmentation_service.py), together with theorems settling the
spec claims about it.

Strings are modelled as Lean strings; the Python string primitives used by the
source (str.split(), " ".join, str.strip(), str.lower(), the regex
substitutions, str.rfind) are transcribed as executable functions on the
underlying character lists.  Python floats appearing in backend detection
scores are modelled as rationals; raw bounding-box coordinates, which the
source explicitly guards against NaN/Inf, are modelled by the PyFloat type.
-/

set_option maxRecDepth 4000

namespace Penguin

/-! ### Python string primitives -/

namespace PyStr

/-- Splitter used to model Python str.split() with no argument: split on runs
of whitespace, producing no empty words.  The accumulator holds the current
word reversed. -/
def splitWSAux : List Char → List Char → List (List Char)
  | [], acc => if acc.isEmpty then [] else [acc.reverse]
  | c :: cs, acc =>
    if c.isWhitespace then
      if acc.isEmpty then splitWSAux cs []
      else acc.reverse :: splitWSAux cs []
    else splitWSAux cs (c :: acc)

/-- Words of a character list, Python str.split() semantics. -/
def wordsCL (l : List Char) : List (List Char) :=
  splitWSAux l []

/-- Python text.split() on a string. -/
def pysplit (s : String) : List String :=
  (wordsCL s.data).map String.mk

/-- Word count of a string: len(text.split()) in Python. -/
def wc (s : String) : Nat :=
  (pysplit s).length

/-- Python " ".join on character lists. -/
def joinSpaceCL : List (List Char) → List Char
  | [] => []
  | [w] => w
  | w :: w' :: t => w ++ ' ' :: joinSpaceCL (w' :: t)

/-- Python " ".join(words) on strings. -/
def joinSpace (ws : List String) : String :=
  ⟨joinSpaceCL (ws.map String.data)⟩

/-- Python sep.join on character lists, for an arbitrary separator. -/
def joinWithCL (sep : List Char) : List (List Char) → List Char
  | [] => []
  | [w] => w
  | w :: w' :: t => w ++ sep ++ joinWithCL sep (w' :: t)

/-- Python sep.join(parts) on strings. -/
def joinWith (sep : String) (ws : List String) : String :=
  ⟨joinWithCL sep.data (ws.map String.data)⟩

/-- Collapse every run of whitespace to a single space, as re.sub with a
whitespace-run pattern and a single-space replacement does.  The flag records
whether the previous character was whitespace. -/
def collapseWSgo : Bool → List Char → List Char
  | _, [] => []
  | prevWS, c :: cs =>
    if c.isWhitespace then
      if prevWS then collapseWSgo true cs
      else ' ' :: collapseWSgo true cs
    else c :: collapseWSgo false cs

/-- Python str.strip() on a character list: drop whitespace from both ends. -/
def stripWSCL (l : List Char) : List Char :=
  ((l.dropWhile Char.isWhitespace).reverse.dropWhile Char.isWhitespace).reverse

/-- Python str.strip() on a string. -/
def pystrip (s : String) : String :=
  ⟨stripWSCL s.data⟩

/-- Python str.lower() (ASCII-faithful). -/
def pylower (s : String) : String :=
  ⟨s.data.map Char.toLower⟩

/-- Python str.rstrip(".") on a character list: drop trailing period chars. -/
def rstripDotsCL (l : List Char) : List Char :=
  (l.reverse.dropWhile (· = '.')).reverse

/-- Python str.rstrip(".") on a string. -/
def rstripDots (s : String) : String :=
  ⟨rstripDotsCL s.data⟩

/-- Index of the last occurrence of the two-character sequence a, b in l,
Python str.rfind for a two-character needle (None models -1). -/
def rfind2 (l : List Char) (a b : Char) : Option Nat :=
  ((List.range l.length).filter
    (fun i => decide (l.get? i = some a) && decide (l.get? (i + 1) = some b))).getLast?

end PyStr

/-! ### DescriptorDeduper (app/detection/desc_deduper.py) -/

namespace DescriptorDeduper

/-- Stopword list used for canonicalization (desc_deduper.py, field
stopwords). -/
def stopwords : List String :=
  ["a", "an", "the", "of", "with", "and", "or", "to",
   "in", "on", "at", "for", "from", "by", "into", "this",
   "that", "is", "are", "was", "were", "it", "its",
   "as", "up", "down", "over", "under", "around"]

/-- Character filter of the canonicalizer: the source lowercases and then
replaces every character that is not lowercase-alphanumeric and not whitespace
by a space. -/
def canonChar (c : Char) : Char :=
  if ('a' ≤ c && c ≤ 'z') || ('0' ≤ c && c ≤ '9') || c.isWhitespace then c else ' '

/-- DescriptorDeduper._canonical_tokens: lowercase, replace non-alphanumeric
characters with spaces, collapse whitespace, split, drop short and stopword
tokens. -/
def canonicalTokens (phrase : String) : List String :=
  let s := PyStr.pylower phrase
  let s : String := ⟨s.data.map canonChar⟩
  let s : String := ⟨PyStr.stripWSCL (PyStr.collapseWSgo false s.data)⟩
  let tokens := PyStr.pysplit s
  tokens.filter (fun t => decide (1 < t.length) && !(stopwords.contains t))

/-- Jaccard similarity of two token sets as computed inline in
DescriptorDeduper.dedup: zero when either set is empty, otherwise
intersection size over union size. -/
def jaccardSets (a b : Finset String) : ℚ :=
  if a = ∅ ∨ b = ∅ then 0
  else
    let inter := (a ∩ b).card
    let union := (a ∪ b).card
    if union = 0 then 0 else (inter : ℚ) / (union : ℚ)

/-- Token set of a candidate phrase. -/
def tokenSet (phrase : String) : Finset String :=
  (canonicalTokens phrase).toFinset

/-- Token-level duplicate test of DescriptorDeduper.dedup: the candidate is a
near-duplicate when its Jaccard similarity against any already-kept token set
reaches the threshold. -/
def isTokenDup (thresh : ℚ) (cand : Finset String) (keptSets : List (Finset String)) : Bool :=
  keptSets.any (fun prev => decide (thresh ≤ jaccardSets cand prev))

/-- Main loop of DescriptorDeduper.dedup in the token-only configuration
(embedder is None): iterate in order, dropping a candidate whose token-set
Jaccard similarity against any kept phrase reaches the threshold. -/
def dedupGo (thresh : ℚ) : List String → List (Finset String) → List String
  | [], _ => []
  | p :: rest, keptSets =>
    let cs := tokenSet p
    if isTokenDup thresh cs keptSets then
      dedupGo thresh rest keptSets
    else
      p :: dedupGo thresh rest (keptSets ++ [cs])

/-- DescriptorDeduper.dedup with no embedder configured. -/
def dedup (thresh : ℚ) (phrases : List String) : List String :=
  dedupGo thresh phrases []

/-- Main loop of DescriptorDeduper.dedup when the batch embedding succeeded:
the token comparison runs first; a candidate that survives it is additionally
compared by similarity of its embedding against every kept embedding.  The
vector type is abstract and the cosine similarity (computed in the source with
numpy floating-point primitives, an external library) is passed in as a
capability.  A length-violating embedding batch, which would raise an
IndexError in Python, falls back to a default vector. -/
def dedupSemGo {γ : Type} [Inhabited γ] (thresh semThresh : ℚ) (sim : γ → γ → ℚ)
    (embeds : List γ) :
    List String → Nat → List (Finset String) → List γ → List String
  | [], _, _, _ => []
  | p :: rest, idx, keptSets, keptEmbeds =>
    let cs := tokenSet p
    if isTokenDup thresh cs keptSets then
      dedupSemGo thresh semThresh sim embeds rest (idx + 1) keptSets keptEmbeds
    else
      let candVec := embeds.getD idx default
      if keptEmbeds.any (fun prev => decide (semThresh ≤ sim candVec prev)) then
        dedupSemGo thresh semThresh sim embeds rest (idx + 1) keptSets keptEmbeds
      else
        p :: dedupSemGo thresh semThresh sim embeds rest (idx + 1)
              (keptSets ++ [cs]) (keptEmbeds ++ [candVec])

/-- DescriptorDeduper.dedup with an embedder configured.  The source
pre-computes embeddings for the whole batch inside a try/except: if encoding
raises, the embedder is set to None for the remainder of the call and the loop
degrades to token-only comparison.  The embedder is the injected external
capability with encode, modelled as a fallible function. -/
def dedupFull {γ : Type} [Inhabited γ] (thresh semThresh : ℚ)
    (encode : List String → Except Unit (List γ)) (sim : γ → γ → ℚ)
    (phrases : List String) : List String :=
  if phrases = [] then []
  else
    match encode phrases with
    | .error _ => dedupGo thresh phrases []
    | .ok embeds => dedupSemGo thresh semThresh sim embeds phrases 0 [] []

end DescriptorDeduper

/-! ### Spec types (app/detection/types.py) -/

/-- PromptTier: ordered levels of prompt richness. -/
inductive PromptTier where
  | CORE
  | CORE_VISUAL
  | CORE_VISUAL_SPATIAL
deriving DecidableEq, Repr

/-- String value of a tier, matching the Python enum values. -/
def PromptTier.value : PromptTier → String
  | .CORE => "core"
  | .CORE_VISUAL => "core_visual"
  | .CORE_VISUAL_SPATIAL => "core_visual_spatial"

/-- PromptSpec: per-object accumulated description. -/
structure PromptSpec where
  label : String
  core : String
  visual : List String := []
  locations : List String := []
  relations : List String := []
  orientations : List String := []
deriving DecidableEq, Repr

/-- PromptPlan: a built prompt ready to send to the detector. -/
structure PromptPlan where
  label : String
  tier : PromptTier
  text : String
deriving DecidableEq, Repr

/-- PromptPlanSet (app/services/prompt_service.py): tiered prompt candidates
for a single object. -/
structure PromptPlanSet where
  label : String
  plans : List PromptPlan
deriving DecidableEq, Repr

/-! ### Raw descriptor records

The services receive object descriptors as JSON dictionaries with string
values.  A record is modelled as an ordered association list; a value of none
models Python None. -/

/-- Raw descriptor record: ordered key/value pairs with possibly-null
values. -/
def RawRecord : Type := List (String × Option String)

/-- Dictionary lookup, raw.get(k): none when the key is absent. -/
def RawRecord.get (raw : RawRecord) (k : String) : Option (Option String) :=
  (List.find? (fun kv => kv.1 == k) raw).map (fun kv => kv.2)

/-! ### FieldSpecBuilder (app/detection/field_spec_builder.py) -/

namespace FieldSpecBuilder

/-- Field routing sets of FieldSpecBuilder. -/
def VISUAL_FIELDS : List String := ["shape_and_color", "texture", "appearance_details", "relative_size"]

/-- Location field set. -/
def LOCATION_FIELDS : List String := ["location"]

/-- Relation field set. -/
def RELATION_FIELDS : List String := ["relationship"]

/-- Orientation field set. -/
def ORIENTATION_FIELDS : List String := ["orientation"]

/-- FieldSpecBuilder._clean on a record value: str(v).strip() for a present
value, the empty string for None. -/
def clean : Option String → String
  | none => ""
  | some s => PyStr.pystrip s

/-- Cleaned value of raw.get(k, ""): an absent key yields the empty default,
which cleans to the empty string. -/
def cleanedGet (raw : RawRecord) (k : String) : String :=
  match raw.get k with
  | none => ""
  | some v => clean v

/-- FieldSpecBuilder.parse: core is the first period-delimited sentence of the
description (the full description when that sentence strips to nothing, the
empty string when the description itself is absent or blank); the remaining
fields are routed by the fixed field sets, in record order, skipping blank
values. -/
def parse (raw : RawRecord) (label : String) : PromptSpec :=
  let descFull := cleanedGet raw "description"
  let core :=
    if descFull ≠ "" then
      let firstSentence := PyStr.pystrip ⟨descFull.data.takeWhile (· ≠ '.')⟩
      if firstSentence = "" then descFull else firstSentence
    else ""
  let routed := raw.foldl
    (fun (st : List String × List String × List String × List String) kv =>
      if kv.1 = "description" then st
      else
        let vs := clean kv.2
        if vs = "" then st
        else if VISUAL_FIELDS.contains kv.1 then (st.1 ++ [vs], st.2.1, st.2.2.1, st.2.2.2)
        else if LOCATION_FIELDS.contains kv.1 then (st.1, st.2.1 ++ [vs], st.2.2.1, st.2.2.2)
        else if RELATION_FIELDS.contains kv.1 then (st.1, st.2.1, st.2.2.1 ++ [vs], st.2.2.2)
        else if ORIENTATION_FIELDS.contains kv.1 then (st.1, st.2.1, st.2.2.1, st.2.2.2 ++ [vs])
        else st)
    ([], [], [], [])
  { label := label
    core := core
    visual := routed.1
    locations := routed.2.1
    relations := routed.2.2.1
    orientations := routed.2.2.2 }

end FieldSpecBuilder

/-! ### PromptBuilder (app/detection/prompt_builder.py) -/

/-- Configuration surface of PromptBuilder (the dataclass fields that are
plain parameters; the fixed lexical tables are given below as constants). -/
structure PromptBuilder where
  clauseJoiner : String := ", "
  maxVisualDescriptors : Nat := 4
  maxPromptWords : Nat := 20
  maxVariantsPerTier : Nat := 5
deriving Repr

namespace PromptBuilder

/-- Stopword table of PromptBuilder. -/
def stopwords : List String :=
  ["a", "an", "the", "this", "that", "these", "those", "of", "to", "in", "on",
   "at", "for", "from", "by", "with", "within", "inside", "outside", "across",
   "around", "through", "throughout", "and", "or", "is", "are", "was", "were",
   "be", "being", "been", "it", "its", "their", "his", "her", "as", "very",
   "slightly", "mostly", "primarily", "composed", "positioned", "located",
   "appears", "appearing", "showing"]

/-- Subject-splitting words table. -/
def subjectSplitWords : List String :=
  ["with", "on", "in", "at", "by", "near", "under", "above", "behind",
   "between", "through", "while", "where", "who", "that", "which", "holding",
   "wearing", "carrying", "featuring", "falling", "floating", "standing",
   "sitting", "resting", "set", "placed"]

/-- Modifier-token table used by head-token extraction. -/
def labelModifierTokens : List String :=
  ["late", "early", "young", "old", "new", "small", "large", "big", "tiny",
   "huge", "vibrant", "delicate", "majestic", "luxurious", "prominent",
   "quiet", "snowy", "crisp", "soft", "hard", "smooth", "rough", "bright",
   "dark", "deep", "muted", "translucent", "reflective", "metallic", "wooden",
   "golden", "silver", "red", "blue", "green", "yellow", "white", "black",
   "brown", "gray", "grey", "center", "foreground", "background", "frame"]

/-- Particle-like nouns eligible for a synthesized plural variant. -/
def pluralFallbackNouns : List String :=
  ["snowflake", "raindrop", "droplet", "petal", "leaf", "bubble", "spark"]

/-- Generic visual descriptors skipped when picking a key descriptor. -/
def genericVisualDescriptors : List String :=
  ["small", "large", "medium", "tiny", "big", "huge",
   "small within frame", "medium within frame", "large within frame",
   "small within the ring", "medium within the ring", "large within the ring",
   "small within scene", "medium within scene", "large within scene"]

/-- PromptBuilder._join_clause_list: strip entries, drop blanks, optionally
cap the count, join with the clause joiner; none when nothing survives. -/
def joinClauseList (pb : PromptBuilder) (lst : List String) (maxItems : Option Nat) : Option String :=
  let cleaned := (lst.filter (fun s => (s != "") && (PyStr.pystrip s != ""))).map PyStr.pystrip
  if cleaned = [] then none
  else
    let cleaned := match maxItems with
      | some n => cleaned.take n
      | none => cleaned
    some (PyStr.joinWith pb.clauseJoiner cleaned)

/-- Post-truncation cut of _truncate_to_word_limit: prefer to end the
truncated text at the last comma-space, else period-space, separator sitting
past the midpoint of the character length. -/
def cutAtSepCL (t : List Char) : List Char :=
  match PyStr.rfind2 t ',' ' ' with
  | some i =>
    if t.length / 2 < i then t.take i
    else
      match PyStr.rfind2 t '.' ' ' with
      | some j => if t.length / 2 < j then t.take j else t
      | none => t
  | none =>
    match PyStr.rfind2 t '.' ' ' with
    | some j => if t.length / 2 < j then t.take j else t
    | none => t

/-- PromptBuilder._truncate_to_word_limit: keep the text when its word count
is within the limit, otherwise rejoin the first maxWords words and cut at a
clean separator. -/
def truncateToWordLimit (text : String) (maxWords : Nat) : String :=
  let ws := PyStr.pysplit text
  if ws.length ≤ maxWords then text
  else
    let truncated := PyStr.joinSpace (ws.take maxWords)
    ⟨cutAtSepCL truncated.data⟩

/-- PromptBuilder._normalize_spaces: collapse whitespace runs to single
spaces and strip the ends. -/
def normalizeSpaces (text : String) : String :=
  ⟨PyStr.stripWSCL (PyStr.collapseWSgo false text.data)⟩

/-- Character filter of _extract_subject_phrase: keep ASCII alphanumerics,
whitespace, hyphen and apostrophe, replace everything else with a space. -/
def subjectKeepChar (c : Char) : Char :=
  if c.isAlpha || c.isDigit || c.isWhitespace || (c == '-') || (c == '\'') then c else ' '

/-- Leading articles stripped by _extract_subject_phrase. -/
def leadingArticles : List String :=
  ["a", "an", "the", "this", "that", "these", "those", "some", "several", "many"]

/-- PromptBuilder._extract_subject_phrase: clean punctuation, normalize
spaces, strip one leading article (the source's anchored case-insensitive
alternation followed by whitespace, which on the space-normalized text is
exactly dropping a first word from the article table when another word
follows), then cut at the first subject-splitting word at index two or
later. -/
def extractSubjectPhrase (text : String) : String :=
  let cleaned : String := ⟨text.data.map subjectKeepChar⟩
  let cleaned := normalizeSpaces cleaned
  if cleaned = "" then "object"
  else
    let ws0 := PyStr.pysplit cleaned
    let ws :=
      if decide (2 ≤ ws0.length) && leadingArticles.contains (PyStr.pylower (ws0.headD "")) then
        ws0.tail
      else ws0
    if ws = [] then "object"
    else
      let cutIdx := (((List.range ws.length).filter
        (fun i => decide (2 ≤ i) && subjectSplitWords.contains (PyStr.pylower (ws.getD i "")))).head?).getD ws.length
      let subject := PyStr.pystrip (PyStr.joinSpace (ws.take cutIdx))
      if subject = "" then "object" else subject

/-- Lowercase-alphanumeric character class of the _tokenize regex. -/
def isLowerAlnum (c : Char) : Bool :=
  c.isLower || c.isDigit

/-- Scanner modelling the _tokenize regex findall: maximal lowercase
alphanumeric runs, optionally extended once by a hyphen or apostrophe and a
further run.  Fuel is the remaining character count. -/
def tokenizeGo : Nat → List Char → List (List Char)
  | 0, _ => []
  | _, [] => []
  | fuel + 1, c :: cs =>
    if isLowerAlnum c then
      let run := List.takeWhile isLowerAlnum (c :: cs)
      let rest := List.dropWhile isLowerAlnum (c :: cs)
      match rest with
      | [] => [run]
      | sep :: r2 =>
        if (sep == '-') || (sep == '\'') then
          let run2 := r2.takeWhile isLowerAlnum
          if run2.isEmpty then run :: tokenizeGo fuel rest
          else (run ++ sep :: run2) :: tokenizeGo fuel (r2.dropWhile isLowerAlnum)
        else run :: tokenizeGo fuel rest
    else tokenizeGo fuel cs

/-- PromptBuilder._tokenize on the lowercased text. -/
def tokenize (text : String) : List String :=
  let l := (PyStr.pylower text).data
  (tokenizeGo l.length l).map String.mk

/-- PromptBuilder._content_tokens: tokens that are not stopwords. -/
def contentTokens (text : String) : List String :=
  (tokenize text).filter (fun t => !(stopwords.contains t))

/-- Irregular singulars table of _singularize. -/
def singularIrregular : List (String × String) :=
  [("men", "man"), ("women", "woman"), ("people", "person"),
   ("children", "child"), ("mice", "mouse"), ("geese", "goose"),
   ("teeth", "tooth"), ("feet", "foot")]

/-- PromptBuilder._singularize. -/
def singularize (token : String) : String :=
  match singularIrregular.find? (fun kv => kv.1 == token) with
  | some kv => kv.2
  | none =>
    if token.endsWith "ies" && decide (4 < token.length) then token.dropRight 3 ++ "y"
    else if token.endsWith "ses" && decide (4 < token.length) then token.dropRight 2
    else if token.endsWith "s" && decide (3 < token.length) then token.dropRight 1
    else token

/-- Irregular plurals table of _pluralize. -/
def pluralIrregular : List (String × String) :=
  [("man", "men"), ("woman", "women"), ("person", "people"),
   ("child", "children"), ("mouse", "mice"), ("goose", "geese"),
   ("tooth", "teeth"), ("foot", "feet")]

/-- PromptBuilder._pluralize. -/
def pluralize (token : String) : String :=
  match pluralIrregular.find? (fun kv => kv.1 == token) with
  | some kv => kv.2
  | none =>
    if token.endsWith "y" && decide (2 < token.length)
        && !(("aeiou".data).contains (token.data.getD (token.data.length - 2) ' ')) then
      token.dropRight 1 ++ "ies"
    else if token.endsWith "s" then token
    else token ++ "s"

/-- PromptBuilder._looks_like_modifier. -/
def looksLikeModifier (token : String) : Bool :=
  token.endsWith "ly"

/-- PromptBuilder._is_numeric_like. -/
def isNumericLike (token : String) : Bool :=
  token.data.any Char.isDigit

/-- PromptBuilder._extract_head_token: rightmost content token that is not
numeric, not a known modifier and not adverb-like; falling back to the
rightmost non-numeric token, then to the last token. -/
def extractHeadToken (text : String) : Option String :=
  let tokens := contentTokens text
  if tokens = [] then none
  else
    match tokens.reverse.find?
        (fun t => !(isNumericLike t) && !(labelModifierTokens.contains t) && !(looksLikeModifier t)) with
    | some t => some t
    | none =>
      match tokens.reverse.find? (fun t => !(isNumericLike t)) with
      | some t => some t
      | none => tokens.getLast?

/-- PromptBuilder._noun_variants: head token, its singular, and for
particle-like nouns a synthesized plural. -/
def nounVariants (text : String) : List String :=
  match extractHeadToken text with
  | none => []
  | some head =>
    let variants := [head]
    let singular := singularize head
    let variants := if variants.contains singular then variants else variants ++ [singular]
    if (singular == head) && pluralFallbackNouns.contains head then
      let plural := pluralize head
      if variants.contains plural then variants else variants ++ [plural]
    else variants

/-- PromptBuilder.extract_label: head token of the subject phrase when
available, else the first four words of the subject. -/
def extractLabel (text : String) : String :=
  let subject := extractSubjectPhrase text
  match extractHeadToken subject with
  | some head => head
  | none =>
    let subject := PyStr.pystrip subject
    if subject = "" then "object"
    else PyStr.joinSpace ((PyStr.pysplit subject).take 4)

/-- Loop of PromptBuilder._dedup_texts: case-insensitive deduplication on the
space-normalized texts, preserving order, dropping blanks. -/
def dedupTextsGo : List String → List String → List String
  | [], _ => []
  | t :: rest, seen =>
    let norm := PyStr.pylower (normalizeSpaces t)
    if (norm == "") || seen.contains norm then dedupTextsGo rest seen
    else normalizeSpaces t :: dedupTextsGo rest (seen ++ [norm])

/-- PromptBuilder._dedup_texts. -/
def dedupTexts (texts : List String) : List String :=
  dedupTextsGo texts []

/-- PromptBuilder._select_key_visual_descriptor: first non-blank descriptor
that is not in the generic table, else the first descriptor if any. -/
def selectKeyVisualDescriptor (visuals : List String) : Option String :=
  match visuals.find? (fun d =>
      let cleaned := PyStr.pylower (normalizeSpaces d)
      (cleaned != "") && !(genericVisualDescriptors.contains cleaned)) with
  | some d => some d
  | none => visuals.head?

/-- PromptBuilder._base_prompt: core sentence, plus the capped visual clause
for the visual tiers, plus the deprecated spatial clause for the spatial
tier, joined by period-space. -/
def basePrompt (pb : PromptBuilder) (spec : PromptSpec) (tier : PromptTier) : String :=
  let core := PyStr.rstripDots (PyStr.pystrip (if spec.core = "" then "object" else spec.core))
  let sentences := [core]
  let sentences :=
    if (tier == .CORE_VISUAL) || (tier == .CORE_VISUAL_SPATIAL) then
      match joinClauseList pb spec.visual (some pb.maxVisualDescriptors) with
      | some visualClause => sentences ++ [PyStr.rstripDots visualClause]
      | none => sentences
    else sentences
  let sentences :=
    if tier == .CORE_VISUAL_SPATIAL then
      let spatialBits :=
        (match spec.locations.head? with
         | some l => ["located at " ++ l]
         | none => []) ++
        (match spec.relations.head? with
         | some r => [r]
         | none => []) ++
        (match spec.orientations.head? with
         | some o => ["oriented " ++ o]
         | none => [])
      match joinClauseList pb spatialBits none with
      | some spatialClause => sentences ++ [PyStr.rstripDots spatialClause]
      | none => sentences
    else sentences
  PyStr.joinWith ". " sentences

/-- Candidate assembly of PromptBuilder.build_variants: subject, noun
variants, core text, visual combinations for the visual tiers, and the base
prompt. -/
def variantCandidates (pb : PromptBuilder) (spec : PromptSpec) (tier : PromptTier) : List String :=
  let base := basePrompt pb spec tier
  let coreText := PyStr.rstripDots (PyStr.pystrip (if spec.core = "" then "object" else spec.core))
  let subject := extractSubjectPhrase coreText
  let nv := nounVariants subject
  let candidates := [subject] ++ nv ++ [coreText]
  let candidates :=
    if (tier == .CORE_VISUAL) || (tier == .CORE_VISUAL_SPATIAL) then
      match selectKeyVisualDescriptor spec.visual with
      | some keyVisual =>
        let candidates := candidates ++ [subject ++ ". " ++ PyStr.rstripDots keyVisual]
        if nv.isEmpty then candidates
        else candidates ++ [nv.headD "" ++ ". " ++ PyStr.rstripDots keyVisual]
      | none => candidates
    else candidates
  candidates ++ [base]

/-- PromptBuilder.build_variants: strip and truncate each non-blank
candidate, deduplicate case-insensitively, cap the count. -/
def buildVariants (pb : PromptBuilder) (spec : PromptSpec) (tier : PromptTier) : List String :=
  (dedupTexts (((variantCandidates pb spec tier).filter
      (fun t => (t != "") && (PyStr.pystrip t != ""))).map
    (fun t => truncateToWordLimit (PyStr.rstripDots (PyStr.pystrip t)) pb.maxPromptWords))).take
    pb.maxVariantsPerTier

/-- PromptBuilder.build_freeform_variants: the same subject and noun logic
applied to a bare free-text prompt. -/
def buildFreeformVariants (pb : PromptBuilder) (promptText : String) : List String :=
  let core := PyStr.pystrip promptText
  if core = "" then []
  else
    let subject := extractSubjectPhrase core
    let variants := [core, subject] ++ nounVariants subject
    let deduped := dedupTexts variants
    (deduped.take pb.maxVariantsPerTier).map (fun t => truncateToWordLimit t pb.maxPromptWords)

/-- PromptBuilder.build: the first variant, or the literal object
when none could be produced. -/
def build (pb : PromptBuilder) (spec : PromptSpec) (tier : PromptTier) : String :=
  match buildVariants pb spec tier with
  | v :: _ => v
  | [] => "object"

end PromptBuilder

/-- Truthy lookup raw.get(k) or fallthrough: a present, non-None, non-empty
string value; otherwise none.  Models Python truthiness of record values. -/
def RawRecord.truthyGet (raw : RawRecord) (k : String) : Option String :=
  match raw.get k with
  | some (some s) => if s = "" then none else some s
  | _ => none

/-! ### PromptPipeline (app/services/prompt_service.py)

The pipeline's refiner stage calls the external NLP model; for the pipeline
invariants it is quantified as an arbitrary (successful) refinement function
from raw record and parsed spec to refined spec.  Its error behaviour is
settled separately on the SemanticRefiner embedding. -/

namespace PromptPipeline

/-- Default tier order of PromptPipeline: concise first, then visual;
CORE_VISUAL_SPATIAL is excluded by default. -/
def defaultTierOrder : List PromptTier := [.CORE, .CORE_VISUAL]

/-- PromptPipeline._is_placeholder_label: full regex match of an object_
prefix followed by one or more digits, on the stripped lowercased label. -/
def isPlaceholderLabel (label : String) : Bool :=
  let s := PyStr.pylower (PyStr.pystrip label)
  let rest := s.drop 7
  s.startsWith "object_" && (rest != "") && rest.data.all Char.isDigit

/-- PromptPipeline._derive_label: explicit label or name field, else a short
label extracted from the description, else the indexed placeholder. -/
def deriveLabel (obj : RawRecord) (idx : Nat) : String :=
  let rawLabel := PyStr.pystrip (((obj.truthyGet "label").orElse (fun _ => obj.truthyGet "name")).getD "")
  if rawLabel ≠ "" then rawLabel
  else
    let desc := PyStr.pystrip ((obj.truthyGet "description").getD "")
    if desc ≠ "" then PromptBuilder.extractLabel desc
    else "object_" ++ toString idx

/-- PromptPipeline._render_tier_variants: the builder's variants, or the
single built prompt when the variant list is empty. -/
def renderTierVariants (pb : PromptBuilder) (spec : PromptSpec) (tier : PromptTier) : List String :=
  let variants := PromptBuilder.buildVariants pb spec tier
  if variants = [] then [PromptBuilder.build pb spec tier] else variants

/-- Tier loop of PromptPipeline.build_from_objects: render each tier's
variants and append them as plans, deduplicating case-insensitively across
the whole set. -/
def plansForSpec (pb : PromptBuilder) (tierOrder : List PromptTier) (spec : PromptSpec) : List PromptPlan :=
  (tierOrder.foldl (fun (st : List PromptPlan × List String) tier =>
    (renderTierVariants pb spec tier).foldl (fun st text =>
      let normalized := PyStr.pylower (PyStr.pystrip text)
      if (normalized == "") || st.2.contains normalized then st
      else (st.1 ++ [{ label := spec.label, tier := tier, text := text }], st.2 ++ [normalized])) st)
    ([], [])).1

/-- Per-object spec construction of build_from_objects: derive the label,
parse the fields, refine, and upgrade a still-placeholder label from the
refined core text. -/
def refinedSpec (refine : RawRecord → PromptSpec → PromptSpec) (obj : RawRecord) (idx : Nat) : PromptSpec :=
  let specLabel := deriveLabel obj idx
  let spec := FieldSpecBuilder.parse obj specLabel
  let spec := refine obj spec
  if isPlaceholderLabel spec.label then
    let upgraded := PromptBuilder.extractLabel spec.core
    if (upgraded != "") && !(isPlaceholderLabel upgraded) then { spec with label := upgraded }
    else spec
  else spec

/-- Per-object plan set of build_from_objects, including the literal object
fallback plan appended when no plan could be rendered. -/
def planSetForObject (pb : PromptBuilder) (tierOrder : List PromptTier)
    (refine : RawRecord → PromptSpec → PromptSpec) (idx : Nat) (obj : RawRecord) : PromptPlanSet :=
  if plansForSpec pb tierOrder (refinedSpec refine obj idx) = [] then
    { label := (refinedSpec refine obj idx).label
      plans := [{ label := (refinedSpec refine obj idx).label, tier := .CORE, text := "object" }] }
  else
    { label := (refinedSpec refine obj idx).label
      plans := plansForSpec pb tierOrder (refinedSpec refine obj idx) }

/-- PromptPipeline.build_from_objects. -/
def buildFromObjects (pb : PromptBuilder) (tierOrder : List PromptTier)
    (refine : RawRecord → PromptSpec → PromptSpec) (objects : List RawRecord) : List PromptPlanSet :=
  objects.enum.map (fun p => planSetForObject pb tierOrder refine p.1 p.2)

/-- Per-prompt plan set of build_from_prompts: none for a blank prompt, else
the CORE-tier freeform variants with the prompt itself as fallback
variant. -/
def promptPlanSetFor (pb : PromptBuilder) (prompt : String) : Option PromptPlanSet :=
  if PyStr.pystrip prompt = "" then none
  else some
    { label := PyStr.pystrip prompt
      plans := (if PromptBuilder.buildFreeformVariants pb (PyStr.pystrip prompt) = []
                then [PyStr.pystrip prompt]
                else PromptBuilder.buildFreeformVariants pb (PyStr.pystrip prompt)).map
        (fun c => { label := PyStr.pystrip prompt, tier := PromptTier.CORE, text := c }) }

/-- PromptPipeline.build_from_prompts: each non-blank free-form prompt
becomes its own single-object plan set. -/
def buildFromPrompts (pb : PromptBuilder) (prompts : List String) : List PromptPlanSet :=
  prompts.filterMap (promptPlanSetFor pb)

end PromptPipeline

/-! ### Detection results (app/detection/types.py) and the orchestrator
(app/services/segmentation_service.py) -/

/-- Python float as delivered by the backend for box coordinates: finite
rational or one of the non-finite values the source guards against. -/
inductive PyFloat where
  | nan
  | inf
  | ninf
  | fin (q : ℚ)
deriving DecidableEq, Repr

/-- Raw backend box in XYXY order. -/
structure RawBox where
  x1 : PyFloat
  y1 : PyFloat
  x2 : PyFloat
  y2 : PyFloat
deriving DecidableEq, Repr

/-- DetectionResult: parallel arrays of boxes, scores, labels and boolean
masks.  Tensor shapes are modelled by list lengths; scores are rationals. -/
structure DetectionResult where
  boxes_xyxy : List RawBox
  scores : List ℚ
  labels : List String
  masks : List (List (List Bool))
deriving DecidableEq, Repr

/-- Sanitized bounding box as emitted in MaskMetadata. -/
structure BoundingBox where
  x1 : ℚ
  y1 : ℚ
  x2 : ℚ
  y2 : ℚ
deriving DecidableEq, Repr

namespace SegmentationService

/-- Minimum confidence threshold for accepting detections
(SegmentationService.MIN_CONFIDENCE_THRESHOLD), the rational value of the
source's 0.4. -/
def MIN_CONFIDENCE_THRESHOLD : ℚ := mkRat 4 10

/-- Early-exit confidence threshold, the rational value of the literal 0.85
in _run_tiered_detection. -/
def EARLY_EXIT_THRESHOLD : ℚ := mkRat 85 100

/-- Maximum confidence of a result: result.scores.max() when the score tensor
is non-empty, else 0.0. -/
def maxScoreOf (r : DetectionResult) : ℚ :=
  match r.scores with
  | [] => 0
  | s :: rest => rest.foldl max s

/-- Loop state of the per-object search in _run_tiered_detection: the best
result with its plan, the best score, and the number of backend calls
issued. -/
structure TryState where
  best : Option (DetectionResult × PromptPlan)
  bestScore : ℚ
  calls : Nat
deriving Repr

/-- Per-object plan loop of _run_tiered_detection: call the backend once per
plan, skip empty detections, track the strictly best maximum score, and break
out as soon as the updated best score reaches the early-exit threshold. -/
def tryPlans (backend : String → DetectionResult) :
    List PromptPlan → ℚ → Option (DetectionResult × PromptPlan) → Nat → TryState
  | [], bestScore, best, calls => ⟨best, bestScore, calls⟩
  | plan :: rest, bestScore, best, calls =>
    let result := backend plan.text
    if result.boxes_xyxy.length = 0 then
      tryPlans backend rest bestScore best (calls + 1)
    else
      let maxScore := maxScoreOf result
      if bestScore < maxScore then
        if EARLY_EXIT_THRESHOLD ≤ maxScore then ⟨some (result, plan), maxScore, calls + 1⟩
        else tryPlans backend rest maxScore (some (result, plan)) (calls + 1)
      else tryPlans backend rest bestScore best (calls + 1)

/-- SegmentationService._relabel_detection: one friendly label per score
row. -/
def relabelDetection (result : DetectionResult) (label : String) : DetectionResult :=
  { result with labels := List.replicate result.scores.length label }

/-- Prompt information recorded per accepted mask row. -/
structure PromptInfo where
  tier : String
  text : String
  label : String
  object_id : String
deriving DecidableEq, Repr

/-- Acceptance gate and tagging of _run_tiered_detection for a single object:
the best result is accepted only when the best score reaches the confidence
floor; an accepted result is relabeled and contributes one prompt-info row
per box. -/
def processObject (backend : String → DetectionResult) (objIdx : Nat) (pset : PromptPlanSet) :
    Option DetectionResult × List PromptInfo :=
  match (tryPlans backend pset.plans 0 none 0).best with
  | some (result, plan) =>
    if MIN_CONFIDENCE_THRESHOLD ≤ (tryPlans backend pset.plans 0 none 0).bestScore then
      (some (relabelDetection result plan.label),
       (List.range (relabelDetection result plan.label).boxes_xyxy.length).map
         (fun _ => { tier := plan.tier.value, text := plan.text, label := plan.label,
                     object_id := "object_" ++ toString objIdx }))
    else (none, [])
  | none => (none, [])

/-- SegmentationService._combine_detection_results: concatenate the accepted
per-object results; an empty input yields a well-formed empty result (the
source sizes the empty mask tensor to the image, which the list model
renders as emptiness). -/
def combineDetectionResults (results : List DetectionResult) : DetectionResult :=
  if results = [] then { boxes_xyxy := [], scores := [], labels := [], masks := [] }
  else
    { boxes_xyxy := (results.map (·.boxes_xyxy)).flatten
      scores := (results.map (·.scores)).flatten
      labels := (results.map (·.labels)).flatten
      masks := (results.map (·.masks)).flatten }

/-- SegmentationService._run_tiered_detection over all objects: process each
prompt set in order and merge the accepted results and their prompt-info
rows. -/
def runTieredDetection (backend : String → DetectionResult) (promptSets : List PromptPlanSet) :
    DetectionResult × List PromptInfo :=
  let folded := promptSets.enum.foldl
    (fun (acc : List DetectionResult × List PromptInfo) p =>
      match processObject backend p.1 p.2 with
      | (some r, info) => (acc.1 ++ [r], acc.2 ++ info)
      | (none, _) => acc)
    ([], [])
  (combineDetectionResults folded.1, folded.2)

/-- Numeric value taken by _sanitize after its finiteness guard: a non-finite
coordinate becomes 0.0. -/
def pyVal : PyFloat → ℚ
  | .fin q => q
  | _ => 0

/-- Inner _sanitize of _clamp_box: a non-finite value becomes 0.0, then the
value is floored at the minimum and capped at the maximum (none models the
infinite default cap). -/
def sanitizeCoord (value : PyFloat) (minimum : ℚ) (maximum : Option ℚ) : ℚ :=
  match maximum with
  | none => max minimum (pyVal value)
  | some m => min (max minimum (pyVal value)) m

/-- SegmentationService._clamp_box: floors x1 and y1 at zero with no upper
cap, floors x2 at x1 and caps it at the image width, floors y2 at y1 and caps
it at the image height; a non-positive image dimension disables the
corresponding cap. -/
def clampBox (box : RawBox) (imageWidth imageHeight : Int) : BoundingBox :=
  let w : Option ℚ := if 0 < imageWidth then some (imageWidth : ℚ) else none
  let h : Option ℚ := if 0 < imageHeight then some (imageHeight : ℚ) else none
  let x1 := sanitizeCoord box.x1 0 none
  let y1 := sanitizeCoord box.y1 0 none
  let x2 := sanitizeCoord box.x2 x1 w
  let y2 := sanitizeCoord box.y2 y1 h
  { x1 := x1, y1 := y1, x2 := x2, y2 := y2 }

/-- Effective score a plan can contribute in the per-object loop: zero for an
empty detection (which the loop skips), else the result's maximum score.
Analysis helper used to state the selection claims. -/
def effScore (backend : String → DetectionResult) (plan : PromptPlan) : ℚ :=
  if (backend plan.text).boxes_xyxy.length = 0 then 0 else maxScoreOf (backend plan.text)

end SegmentationService

/-! ### SemanticRefiner (app/detection/semantic_refiner.py)

The refiner drives an injected spaCy parser.  The parser and the parsed
document structure are external collaborators: a document is modelled as the
interface the refiner actually reads (token attributes, sentence spans and a
span-rendering function), and the parser as a fallible function.  An
unavailable or throwing parser is an error value; crucially, the source wraps
none of its parse calls in a try/except. -/

namespace SemanticRefiner

/-- Parsed token as read by the refiner: surface text, index, coarse POS tag,
dependency label, lemma, children indices and subtree edges. -/
structure SToken where
  text : String
  i : Nat
  pos : String
  dep : String
  lemma_ : String
  children : List Nat
  leftEdge : Nat
  rightEdge : Nat
deriving Repr

/-- Parsed sentence span as read by the refiner. -/
structure SSent where
  tokens : List SToken
  text : String
deriving Repr

/-- Parsed document as read by the refiner; spanText models slicing the doc
and rendering the span's text. -/
structure SDoc where
  tokens : List SToken
  sents : List SSent
  spanText : Nat → Nat → String
  text : String

/-- Locative prepositions table (SemanticRefiner.LOC_PREPS). -/
def LOC_PREPS : List String :=
  ["on", "in", "inside", "at", "over", "under", "below",
   "above", "around", "near", "beside", "behind", "between"]

/-- Children tokens of a token, resolved through the document. -/
def childrenOf (doc : SDoc) (t : SToken) : List SToken :=
  t.children.filterMap (fun i => doc.tokens.get? i)

/-- Stable insertion of a token into a list sorted by index, modelling
Python's stable sorted with the token-index key. -/
def insertByI (t : SToken) : List SToken → List SToken
  | [] => [t]
  | u :: us => if u.i ≤ t.i then u :: insertByI t us else t :: u :: us

/-- Tokens sorted by index (sorted with the token-index key). -/
def sortByI (ts : List SToken) : List SToken :=
  ts.foldr insertByI []

/-- First sentence of the document, or the whole document when it reports no
sentences. -/
def firstSent (doc : SDoc) : SSent :=
  doc.sents.headD { tokens := doc.tokens, text := doc.text }

/-- SemanticRefiner._refine_from_description: mine adjective+noun visual
phrases and prepositional spans out of the first sentence, and append the
full first sentence as a visual descriptor when distinct from the core. -/
def refineFromDescription (parse : String → Except Unit SDoc) (text : String)
    (spec : PromptSpec) : Except Unit PromptSpec := do
  let doc ← parse text
  let fs := firstSent doc
  let spec := fs.tokens.foldl (fun (sp : PromptSpec) token =>
    if token.pos == "NOUN" then
      let adjs := (childrenOf doc token).filter (fun c => c.dep == "amod")
      if adjs.isEmpty then sp
      else
        let phraseTokens := sortByI adjs ++ [token]
        let phrase := PyStr.joinSpace (phraseTokens.map (fun t => t.text))
        { sp with visual := sp.visual ++ [phrase] }
    else sp) spec
  let spec := fs.tokens.foldl (fun (sp : PromptSpec) token =>
    if token.dep == "prep" then
      match (childrenOf doc token).find? (fun c => c.dep == "pobj") with
      | none => sp
      | some pobj =>
        let spanText := PyStr.pystrip (doc.spanText token.leftEdge (pobj.rightEdge + 1))
        if spanText = "" then sp
        else if LOC_PREPS.contains (PyStr.pylower token.lemma_) then
          { sp with locations := sp.locations ++ [spanText] }
        else { sp with relations := sp.relations ++ [spanText] }
    else sp) spec
  let sentText := PyStr.pystrip fs.text
  let spec :=
    if (sentText != "") && (sentText != spec.core) then
      { spec with visual := spec.visual ++ [sentText] }
    else spec
  pure spec

/-- SemanticRefiner._refine_visual_field: noun-centred compact phrases from a
visual field value. -/
def refineVisualField (parse : String → Except Unit SDoc) (text : String)
    (spec : PromptSpec) : Except Unit PromptSpec := do
  let doc ← parse text
  let res := doc.tokens.foldl (fun (st : PromptSpec × List Nat) token =>
    if (token.pos == "NOUN") && !(st.2.contains token.i) then
      let adjs := (childrenOf doc token).filter (fun c => c.dep == "amod")
      let phrase :=
        if adjs.isEmpty then token.text
        else PyStr.joinSpace ((sortByI adjs ++ [token]).map (fun t => t.text))
      ({ st.1 with visual := st.1.visual ++ [phrase] }, st.2 ++ [token.i])
    else st) (spec, [])
  pure res.1

/-- SemanticRefiner._refine_location_field: short location values are kept
verbatim; longer ones contribute their prepositional spans. -/
def refineLocationField (parse : String → Except Unit SDoc) (text : String)
    (spec : PromptSpec) : Except Unit PromptSpec := do
  let doc ← parse text
  if doc.tokens.length ≤ 6 then
    pure { spec with locations := spec.locations ++ [PyStr.pystrip text] }
  else
    pure (doc.tokens.foldl (fun (sp : PromptSpec) token =>
      if token.dep == "prep" then
        match (childrenOf doc token).find? (fun c => c.dep == "pobj") with
        | none => sp
        | some pobj =>
          let spanText := PyStr.pystrip (doc.spanText token.leftEdge (pobj.rightEdge + 1))
          if spanText != "" then { sp with locations := sp.locations ++ [spanText] } else sp
      else sp) spec)

/-- SemanticRefiner._refine_relation_field: short relationship values are
kept verbatim; longer ones contribute verb+object snippets. -/
def refineRelationField (parse : String → Except Unit SDoc) (text : String)
    (spec : PromptSpec) : Except Unit PromptSpec := do
  let doc ← parse text
  if doc.tokens.length ≤ 8 then
    pure { spec with relations := spec.relations ++ [PyStr.pystrip text] }
  else
    pure (doc.tokens.foldl (fun (sp : PromptSpec) token =>
      if token.pos == "VERB" then
        match (childrenOf doc token).find? (fun c => (c.dep == "dobj") || (c.dep == "obj")) with
        | none => sp
        | some obj =>
          let spanText := PyStr.pystrip (doc.spanText token.i (obj.rightEdge + 1))
          { sp with relations := sp.relations ++ [spanText] }
      else sp) spec)

/-- SemanticRefiner._refine_orientation_field: kept as-is, no parse. -/
def refineOrientationField (text : String) (spec : PromptSpec) : PromptSpec :=
  { spec with orientations := spec.orientations ++ [PyStr.pystrip text] }

/-- SemanticRefiner.refine: description first, then the visual, location,
relation and orientation fields (the source iterates hash sets whose order is
interpreter-defined; the declared field order is used here), then a final
deduplication of every list through the injected deduper.  No parse call is
guarded: a parser error propagates. -/
def refine (parse : String → Except Unit SDoc) (dedupFn : List String → List String)
    (raw : RawRecord) (spec : PromptSpec) : Except Unit PromptSpec := do
  let spec ←
    if PyStr.pystrip ((raw.truthyGet "description").getD "") ≠ "" then
      refineFromDescription parse (PyStr.pystrip ((raw.truthyGet "description").getD "")) spec
    else pure spec
  let spec ← FieldSpecBuilder.VISUAL_FIELDS.foldlM (fun sp key =>
    match raw.truthyGet key with
    | some v => refineVisualField parse v sp
    | none => pure sp) spec
  let spec ← FieldSpecBuilder.LOCATION_FIELDS.foldlM (fun sp key =>
    match raw.truthyGet key with
    | some v => refineLocationField parse v sp
    | none => pure sp) spec
  let spec ← FieldSpecBuilder.RELATION_FIELDS.foldlM (fun sp key =>
    match raw.truthyGet key with
    | some v => refineRelationField parse v sp
    | none => pure sp) spec
  let spec := FieldSpecBuilder.ORIENTATION_FIELDS.foldl (fun sp key =>
    match raw.truthyGet key with
    | some v => refineOrientationField v sp
    | none => sp) spec
  pure { spec with
         visual := dedupFn spec.visual
         locations := dedupFn spec.locations
         relations := dedupFn spec.relations
         orientations := dedupFn spec.orientations }

end SemanticRefiner

/-! ### Concrete fixtures used by witnesses and counterexamples -/

/-- Empty backend response: zero boxes, scores, labels and masks. -/
def emptyR : DetectionResult := ⟨[], [], [], []⟩

/-- Arbitrary finite raw box used in fixture responses. -/
def box0 : RawBox := ⟨.fin 1, .fin 2, .fin 3, .fin 4⟩

/-- Fixture backend response with one row per given score. -/
def resOf (scores : List ℚ) : DetectionResult :=
  ⟨scores.map (fun _ => box0), scores, scores.map (fun _ => "raw"), scores.map (fun _ => [[true]])⟩

/-- Fixture plan with a given prompt text. -/
def mkPlan (t : String) : PromptPlan := ⟨"obj", .CORE, t⟩

/-- Fixture plan list with three prompt variants. -/
def plans3 : List PromptPlan := [mkPlan "t1", mkPlan "t2", mkPlan "t3"]

/-- Backend answering only the second variant, with one detection at
confidence one half. -/
def backA (t : String) : DetectionResult :=
  if t = "t2" then resOf [mkRat 1 2] else emptyR

/-- Backend answering only the second variant, with one detection at
confidence nine tenths. -/
def backB (t : String) : DetectionResult :=
  if t = "t2" then resOf [mkRat 9 10] else emptyR

/-- Backend answering only the second variant, with two detections scoring
one half and one tenth. -/
def backC (t : String) : DetectionResult :=
  if t = "t2" then resOf [mkRat 1 2, mkRat 1 10] else emptyR

/-- Backend answering every variant but the third with one detection at
confidence one half, producing a tie between the first two variants. -/
def backD (t : String) : DetectionResult :=
  if t = "t3" then emptyR else resOf [mkRat 1 2]

/-- Backend answering only the first variant at a confidence below the
acceptance floor. -/
def backE (t : String) : DetectionResult :=
  if t = "t1" then resOf [mkRat 1 4] else emptyR

/-! ## Theorems

First the generic facts about the Python string primitives needed by the
word-limit claim, then the claim theorems. -/

namespace PyStr

theorem splitWSAux_length_pos (l : List Char) :
    ∀ (a : Char) (acc : List Char), 1 ≤ (splitWSAux l (a :: acc)).length := by
  induction l with
  | nil => intro a acc; simp [splitWSAux]
  | cons c cs ih =>
    intro a acc
    by_cases hc : c.isWhitespace
    · simp [splitWSAux, hc]
    · simpa [splitWSAux, hc] using ih c (a :: acc)

theorem splitWSAux_take_le (l : List Char) :
    ∀ (n : Nat) (acc : List Char),
      (splitWSAux (l.take n) acc).length ≤ (splitWSAux l acc).length := by
  induction l with
  | nil => intro n acc; simp
  | cons c cs ih =>
    intro n acc
    cases n with
    | zero =>
      cases acc with
      | nil => simp [splitWSAux]
      | cons a as =>
        simp only [List.take_zero, splitWSAux, List.isEmpty_cons, Bool.false_eq_true,
          if_false, List.length_singleton]
        exact splitWSAux_length_pos (c :: cs) a as
    | succ n =>
      simp only [List.take_succ_cons, splitWSAux]
      by_cases hc : c.isWhitespace
      · cases acc with
        | nil => simpa [hc] using ih n []
        | cons a as =>
          simp only [hc, if_true, List.isEmpty_cons, Bool.false_eq_true, if_false,
            List.length_cons]
          exact Nat.succ_le_succ (ih n [])
      · simp only [hc, Bool.false_eq_true, if_false]
        exact ih n (c :: acc)

theorem wordsCL_take_le (l : List Char) (n : Nat) :
    (wordsCL (l.take n)).length ≤ (wordsCL l).length :=
  splitWSAux_take_le l n []

theorem wordsCL_of_take (l m : List Char) (n : Nat) (h : m = l.take n) :
    (wordsCL m).length ≤ (wordsCL l).length := by
  subst h
  exact wordsCL_take_le l n

theorem splitWSAux_good (l : List Char) :
    ∀ acc : List Char, acc.all (fun c => !c.isWhitespace) = true →
      ∀ w ∈ splitWSAux l acc, w ≠ [] ∧ w.all (fun c => !c.isWhitespace) = true := by
  induction l with
  | nil =>
    intro acc hacc w hw
    cases acc with
    | nil => simp [splitWSAux] at hw
    | cons a as =>
      simp only [splitWSAux, List.isEmpty_cons, Bool.false_eq_true, if_false,
        List.mem_singleton] at hw
      subst hw
      refine ⟨by simp, ?_⟩
      rw [List.all_reverse]
      exact hacc
  | cons c cs ih =>
    intro acc hacc w hw
    by_cases hc : c.isWhitespace
    · cases acc with
      | nil =>
        simp only [splitWSAux, hc, if_true, List.isEmpty_nil, if_true] at hw
        exact ih [] (by simp) w hw
      | cons a as =>
        simp only [splitWSAux, hc, if_true, List.isEmpty_cons, Bool.false_eq_true,
          if_false, List.mem_cons] at hw
        rcases hw with hw | hw
        · subst hw
          refine ⟨by simp, ?_⟩
          rw [List.all_reverse]
          exact hacc
        · exact ih [] (by simp) w hw
    · simp only [splitWSAux, hc, Bool.false_eq_true, if_false] at hw
      refine ih (c :: acc) ?_ w hw
      simp only [List.all_cons, Bool.and_eq_true]
      exact ⟨by simp [hc], hacc⟩

theorem wordsCL_good (l : List Char) :
    ∀ w ∈ wordsCL l, w ≠ [] ∧ w.all (fun c => !c.isWhitespace) = true :=
  splitWSAux_good l [] (by simp)

theorem splitWSAux_word_chunk (rest : List Char) :
    ∀ (w acc : List Char), w.all (fun c => !c.isWhitespace) = true →
      splitWSAux (w ++ rest) acc = splitWSAux rest (w.reverse ++ acc) := by
  intro w
  induction w with
  | nil => intro acc _; simp
  | cons c w' ih =>
    intro acc hw
    simp only [List.all_cons, Bool.and_eq_true, Bool.not_eq_true'] at hw
    show splitWSAux (c :: (w' ++ rest)) acc = _
    simp only [splitWSAux, hw.1, Bool.false_eq_true, if_false]
    rw [ih (c :: acc) hw.2]
    simp

theorem wordsCL_joinSpaceCL :
    ∀ ws : List (List Char),
      (∀ w ∈ ws, w ≠ [] ∧ w.all (fun c => !c.isWhitespace) = true) →
      wordsCL (joinSpaceCL ws) = ws := by
  intro ws
  induction ws with
  | nil => intro _; rfl
  | cons w t ih =>
    intro h
    cases t with
    | nil =>
      have hw := h w (by simp)
      show wordsCL (joinSpaceCL [w]) = [w]
      have : joinSpaceCL [w] = w ++ [] := by simp [joinSpaceCL]
      rw [this]
      unfold wordsCL
      rw [splitWSAux_word_chunk [] w [] hw.2]
      cases hwr : w.reverse with
      | nil => exact absurd (by simpa using hwr) hw.1
      | cons a as =>
        simp only [List.append_nil, hwr, splitWSAux, List.isEmpty_cons,
          Bool.false_eq_true, if_false]
        rw [← hwr, List.reverse_reverse]
    | cons w' t' =>
      have hw := h w (by simp)
      have hjoin : joinSpaceCL (w :: w' :: t') = w ++ (' ' :: joinSpaceCL (w' :: t')) := rfl
      show wordsCL (joinSpaceCL (w :: w' :: t')) = w :: w' :: t'
      rw [hjoin]
      unfold wordsCL
      rw [splitWSAux_word_chunk _ w [] hw.2]
      have hws : (' ' : Char).isWhitespace = true := by decide
      cases hwr : w.reverse with
      | nil => exact absurd (by simpa using hwr) hw.1
      | cons a as =>
        simp only [List.append_nil, hwr, splitWSAux, hws, if_true, List.isEmpty_cons,
          Bool.false_eq_true, if_false]
        rw [← hwr, List.reverse_reverse]
        have := ih (fun u hu => h u (List.mem_cons_of_mem w hu))
        unfold wordsCL at this
        rw [this]

theorem splitWSAux_collapse (l : List Char) :
    (∀ acc, splitWSAux (collapseWSgo false l) acc = splitWSAux l acc) ∧
      splitWSAux (collapseWSgo true l) [] = splitWSAux l [] := by
  induction l with
  | nil => exact ⟨fun _ => rfl, rfl⟩
  | cons c cs ih =>
    by_cases hc : c.isWhitespace
    · constructor
      · intro acc
        have hws : (' ' : Char).isWhitespace = true := by decide
        have hcol : collapseWSgo false (c :: cs) = ' ' :: collapseWSgo true cs := by
          simp [collapseWSgo, hc]
        rw [hcol]
        cases acc with
        | nil =>
          simp only [splitWSAux, hws, if_true, hc, List.isEmpty_nil]
          exact ih.2
        | cons a as =>
          simp only [splitWSAux, hws, if_true, hc, List.isEmpty_cons,
            Bool.false_eq_true, if_false]
          rw [ih.2]
      · have hcol : collapseWSgo true (c :: cs) = collapseWSgo true cs := by
          simp [collapseWSgo, hc]
        rw [hcol, ih.2]
        simp [splitWSAux, hc]
    · constructor
      · intro acc
        have hcol : collapseWSgo false (c :: cs) = c :: collapseWSgo false cs := by
          simp [collapseWSgo, hc]
        rw [hcol]
        simp only [splitWSAux, hc, Bool.false_eq_true, if_false]
        exact ih.1 (c :: acc)
      · have hcol : collapseWSgo true (c :: cs) = c :: collapseWSgo false cs := by
          simp [collapseWSgo, hc]
        rw [hcol]
        simp only [splitWSAux, hc, Bool.false_eq_true, if_false, List.isEmpty_nil]
        exact ih.1 [c]

theorem splitWSAux_dropLeadWS (l : List Char) :
    splitWSAux (l.dropWhile Char.isWhitespace) [] = splitWSAux l [] := by
  induction l with
  | nil => rfl
  | cons c cs ih =>
    by_cases hc : c.isWhitespace
    · simp only [List.dropWhile_cons, hc, if_true]
      rw [ih]
      simp [splitWSAux, hc]
    · simp [List.dropWhile_cons, hc]

theorem splitWSAux_allWS (wsl : List Char) :
    ∀ acc, wsl.all Char.isWhitespace = true →
      splitWSAux wsl acc = if acc.isEmpty then [] else [acc.reverse] := by
  induction wsl with
  | nil => intro acc _; rfl
  | cons c cs ih =>
    intro acc h
    simp only [List.all_cons, Bool.and_eq_true] at h
    simp only [splitWSAux, h.1, if_true]
    cases acc with
    | nil =>
      simp only [List.isEmpty_nil, if_true]
      rw [ih [] h.2]
      simp
    | cons a as =>
      simp only [List.isEmpty_cons, Bool.false_eq_true, if_false]
      rw [ih [] h.2]
      simp

theorem splitWSAux_dropTrailWS (l : List Char) :
    ∀ (wsl : List Char) acc, wsl.all Char.isWhitespace = true →
      splitWSAux (l ++ wsl) acc = splitWSAux l acc := by
  induction l with
  | nil =>
    intro wsl acc h
    rw [List.nil_append]
    rw [splitWSAux_allWS wsl acc h]
    rfl
  | cons c cs ih =>
    intro wsl acc h
    show splitWSAux (c :: (cs ++ wsl)) acc = splitWSAux (c :: cs) acc
    by_cases hc : c.isWhitespace
    · cases acc with
      | nil =>
        simp only [splitWSAux, hc, if_true, List.isEmpty_nil, if_true]
        exact ih wsl [] h
      | cons a as =>
        simp only [splitWSAux, hc, if_true, List.isEmpty_cons, Bool.false_eq_true, if_false]
        rw [ih wsl [] h]
    · simp only [splitWSAux, hc, Bool.false_eq_true, if_false]
      exact ih wsl (c :: acc) h

theorem wordsCL_stripWS (l : List Char) :
    wordsCL (stripWSCL l) = wordsCL l := by
  unfold stripWSCL wordsCL
  set m := l.dropWhile Char.isWhitespace with hm
  have hsplit : m.reverse.takeWhile Char.isWhitespace ++ m.reverse.dropWhile Char.isWhitespace
      = m.reverse := List.takeWhile_append_dropWhile Char.isWhitespace m.reverse
  have hdecomp : (m.reverse.dropWhile Char.isWhitespace).reverse ++
      (m.reverse.takeWhile Char.isWhitespace).reverse = m := by
    rw [← List.reverse_append, hsplit, List.reverse_reverse]
  have hws : ((m.reverse.takeWhile Char.isWhitespace).reverse).all Char.isWhitespace = true := by
    rw [List.all_reverse]
    exact List.all_takeWhile
  calc splitWSAux (m.reverse.dropWhile Char.isWhitespace).reverse []
      = splitWSAux ((m.reverse.dropWhile Char.isWhitespace).reverse ++
          (m.reverse.takeWhile Char.isWhitespace).reverse) [] := by
        rw [splitWSAux_dropTrailWS _ _ [] hws]
    _ = splitWSAux m [] := by rw [hdecomp]
    _ = splitWSAux l [] := splitWSAux_dropLeadWS l

theorem wordsCL_normalize (l : List Char) :
    wordsCL (stripWSCL (collapseWSgo false l)) = wordsCL l := by
  rw [wordsCL_stripWS]
  exact (splitWSAux_collapse l).1 []

theorem wc_mk (l : List Char) : wc ⟨l⟩ = (wordsCL l).length := by
  simp [wc, pysplit]

theorem wordsCL_append_left_le (a b : List Char) :
    (wordsCL a).length ≤ (wordsCL (a ++ b)).length := by
  have h : (a ++ b).take a.length = a := List.take_left a b
  calc (wordsCL a).length = (wordsCL ((a ++ b).take a.length)).length := by rw [h]
    _ ≤ (wordsCL (a ++ b)).length := wordsCL_take_le _ _

theorem wordsCL_rstripDots_le (l : List Char) :
    (wordsCL (rstripDotsCL l)).length ≤ (wordsCL l).length := by
  unfold rstripDotsCL
  have hsplit : l.reverse.takeWhile (· = '.') ++ l.reverse.dropWhile (· = '.')
      = l.reverse := List.takeWhile_append_dropWhile _ l.reverse
  have hdecomp : (l.reverse.dropWhile (· = '.')).reverse ++
      (l.reverse.takeWhile (· = '.')).reverse = l := by
    rw [← List.reverse_append, hsplit, List.reverse_reverse]
  calc ((wordsCL (l.reverse.dropWhile (· = '.')).reverse).length)
      ≤ (wordsCL ((l.reverse.dropWhile (· = '.')).reverse ++
          (l.reverse.takeWhile (· = '.')).reverse)).length := wordsCL_append_left_le _ _
    _ = (wordsCL l).length := by rw [hdecomp]

end PyStr

namespace PromptBuilder

theorem wordsCL_cutAtSep_le (t : List Char) :
    ((PyStr.wordsCL (cutAtSepCL t)).length) ≤ (PyStr.wordsCL t).length := by
  unfold cutAtSepCL
  cases h : PyStr.rfind2 t ',' ' ' with
  | none =>
    cases h2 : PyStr.rfind2 t '.' ' ' with
    | none => simp
    | some j =>
      by_cases hj : t.length / 2 < j
      · simp only [hj, if_true]
        exact PyStr.wordsCL_take_le t j
      · simp [hj]
  | some i =>
    by_cases hi : t.length / 2 < i
    · simp only [hi, if_true]
      exact PyStr.wordsCL_take_le t i
    · simp only [hi, if_false]
      cases h2 : PyStr.rfind2 t '.' ' ' with
      | none => simp
      | some j =>
        by_cases hj : t.length / 2 < j
        · simp only [hj, if_true]
          exact PyStr.wordsCL_take_le t j
        · simp [hj]

theorem wc_joinSpace_words (ws : List String)
    (h : ∀ w ∈ ws.map String.data, w ≠ [] ∧ w.all (fun c => !c.isWhitespace)) :
    PyStr.wc (PyStr.joinSpace ws) = ws.length := by
  unfold PyStr.joinSpace
  rw [PyStr.wc_mk, PyStr.wordsCL_joinSpaceCL (ws.map String.data) h]
  simp

theorem wc_truncate (text : String) (m : Nat) :
    PyStr.wc (truncateToWordLimit text m) ≤ m := by
  unfold truncateToWordLimit
  by_cases h : (PyStr.pysplit text).length ≤ m
  · simp only [h, if_true]
    exact h
  · simp only [h, if_false]
    rw [PyStr.wc_mk]
    calc (PyStr.wordsCL (cutAtSepCL (PyStr.joinSpace ((PyStr.pysplit text).take m)).data)).length
        ≤ (PyStr.wordsCL (PyStr.joinSpace ((PyStr.pysplit text).take m)).data).length :=
          wordsCL_cutAtSep_le _
      _ = ((PyStr.pysplit text).take m).length := by
          have hgood : ∀ w ∈ ((PyStr.pysplit text).take m).map String.data,
              w ≠ [] ∧ w.all (fun c => !c.isWhitespace) = true := by
            intro w hw
            simp only [List.mem_map] at hw
            obtain ⟨s, hs, rfl⟩ := hw
            have hs' : s ∈ PyStr.pysplit text := List.mem_of_mem_take hs
            simp only [PyStr.pysplit, List.mem_map] at hs'
            obtain ⟨wl, hwl, rfl⟩ := hs'
            exact PyStr.wordsCL_good text.data wl hwl
          show (PyStr.wordsCL
            (PyStr.joinSpaceCL (((PyStr.pysplit text).take m).map String.data))).length = _
          rw [PyStr.wordsCL_joinSpaceCL _ hgood]
          simp
      _ ≤ m := by
          simp [List.length_take]

theorem wc_normalizeSpaces (s : String) :
    PyStr.wc (normalizeSpaces s) = PyStr.wc s := by
  unfold normalizeSpaces
  rw [PyStr.wc_mk]
  rw [PyStr.wordsCL_normalize]
  simp [PyStr.wc, PyStr.pysplit]

theorem dedupTextsGo_cons (t : String) (rest seen : List String) :
    dedupTextsGo (t :: rest) seen =
      if (PyStr.pylower (normalizeSpaces t) == "")
          || seen.contains (PyStr.pylower (normalizeSpaces t)) then
        dedupTextsGo rest seen
      else
        normalizeSpaces t :: dedupTextsGo rest (seen ++ [PyStr.pylower (normalizeSpaces t)]) := rfl

theorem mem_dedupTextsGo (v : String) :
    ∀ (xs seen : List String), v ∈ dedupTextsGo xs seen →
      ∃ x ∈ xs, v = normalizeSpaces x := by
  intro xs
  induction xs with
  | nil => intro seen h; simp [dedupTextsGo] at h
  | cons t rest ih =>
    intro seen h
    rw [dedupTextsGo_cons] at h
    split at h
    · obtain ⟨x, hx, he⟩ := ih seen h
      exact ⟨x, by simp [hx], he⟩
    · rcases List.mem_cons.mp h with h | h
      · exact ⟨t, by simp, h⟩
      · obtain ⟨x, hx, he⟩ := ih _ h
        exact ⟨x, by simp [hx], he⟩

end PromptBuilder

namespace DescriptorDeduper

theorem dedupGo_idem (thresh : ℚ) :
    ∀ (xs : List String) (ks : List (Finset String)),
      dedupGo thresh (dedupGo thresh xs ks) ks = dedupGo thresh xs ks := by
  intro xs
  induction xs with
  | nil => intro ks; rfl
  | cons p rest ih =>
    intro ks
    by_cases h : isTokenDup thresh (tokenSet p) ks
    · simp only [dedupGo, h, if_true]
      exact ih ks
    · have h1 : dedupGo thresh (p :: rest) ks = p :: dedupGo thresh rest (ks ++ [tokenSet p]) := by
        simp [dedupGo, h]
      rw [h1]
      have h2 : dedupGo thresh (p :: dedupGo thresh rest (ks ++ [tokenSet p])) ks
          = p :: dedupGo thresh (dedupGo thresh rest (ks ++ [tokenSet p])) (ks ++ [tokenSet p]) := by
        simp [dedupGo, h]
      rw [h2, ih (ks ++ [tokenSet p])]

end DescriptorDeduper

/-! ### Claim theorems -/

theorem wc_buildVariants (pb : PromptBuilder) (spec : PromptSpec) (tier : PromptTier) :
    ∀ v ∈ PromptBuilder.buildVariants pb spec tier, PyStr.wc v ≤ pb.maxPromptWords := by
  intro v hv
  unfold PromptBuilder.buildVariants at hv
  have hv' := List.mem_of_mem_take hv
  obtain ⟨x, hx, he⟩ := PromptBuilder.mem_dedupTextsGo v _ [] hv'
  obtain ⟨t, _, rfl⟩ := List.mem_map.mp hx
  rw [he, PromptBuilder.wc_normalizeSpaces]
  exact PromptBuilder.wc_truncate _ _

/-- C7: DescriptorDeduper.dedup with no embedder configured is idempotent:
running it on its own output is a no-op, for every threshold and phrase
list. -/
theorem dedup_idempotent (thresh : ℚ) (xs : List String) :
    DescriptorDeduper.dedup thresh (DescriptorDeduper.dedup thresh xs) =
      DescriptorDeduper.dedup thresh xs :=
  DescriptorDeduper.dedupGo_idem thresh xs []

/-- C9: for every PromptSpec and tier, the prompt returned by
PromptBuilder.build and every variant returned by build_variants contain at
most maxPromptWords words (default 20); the build fallback needs the limit to
admit the one-word literal object. -/
theorem prompt_word_limit (pb : PromptBuilder) (spec : PromptSpec) (tier : PromptTier)
    (h : 1 ≤ pb.maxPromptWords) :
    PyStr.wc (PromptBuilder.build pb spec tier) ≤ pb.maxPromptWords ∧
      ∀ v ∈ PromptBuilder.buildVariants pb spec tier, PyStr.wc v ≤ pb.maxPromptWords := by
  refine ⟨?_, wc_buildVariants pb spec tier⟩
  unfold PromptBuilder.build
  cases hbv : PromptBuilder.buildVariants pb spec tier with
  | nil =>
    have hobj : PyStr.wc "object" = 1 := rfl
    simpa [hobj] using h
  | cons v vs =>
    have hv : v ∈ PromptBuilder.buildVariants pb spec tier := by
      rw [hbv]; exact List.mem_cons_self v vs
    exact wc_buildVariants pb spec tier v hv

/-- Witness for the word-limit claim at the default builder configuration and
a concrete spec. -/
theorem prompt_word_limit_witness :
    PyStr.wc (PromptBuilder.build {} ⟨"ball", "A red ball", ["smooth"], [], [], []⟩ .CORE_VISUAL)
        ≤ (20 : Nat) ∧
      ∀ v ∈ PromptBuilder.buildVariants {} ⟨"ball", "A red ball", ["smooth"], [], [], []⟩
          .CORE_VISUAL, PyStr.wc v ≤ (20 : Nat) :=
  prompt_word_limit {} ⟨"ball", "A red ball", ["smooth"], [], [], []⟩ .CORE_VISUAL (by decide)

/-- C4 (code evidence): on a record with no description field,
FieldSpecBuilder.parse returns an empty core, not the documented literal
object fallback. -/
theorem fieldspec_missing_description_core_empty :
    (FieldSpecBuilder.parse ([("location", some "left")] : RawRecord) "thing").core = ""
      ∧ (FieldSpecBuilder.parse ([("description", some "  ")] : RawRecord) "thing").core = "" := by
  constructor <;> rfl

theorem planSetForObject_plans_ne_nil (pb : PromptBuilder) (tierOrder : List PromptTier)
    (refine : RawRecord → PromptSpec → PromptSpec) (idx : Nat) (obj : RawRecord) :
    (PromptPipeline.planSetForObject pb tierOrder refine idx obj).plans ≠ [] := by
  unfold PromptPipeline.planSetForObject
  by_cases h : PromptPipeline.plansForSpec pb tierOrder (PromptPipeline.refinedSpec refine obj idx) = []
  · simp [h]
  · simp [h]

theorem promptPlanSetFor_plans_ne_nil (pb : PromptBuilder) (prompt : String)
    (s : PromptPlanSet) (h : PromptPipeline.promptPlanSetFor pb prompt = some s) :
    s.plans ≠ [] := by
  unfold PromptPipeline.promptPlanSetFor at h
  by_cases hb : PyStr.pystrip prompt = ""
  · simp [hb] at h
  · simp only [hb, if_false, Option.some.injEq] at h
    subst h
    simp only [ne_eq, List.map_eq_nil_iff]
    by_cases hv : PromptBuilder.buildFreeformVariants pb (PyStr.pystrip prompt) = []
    · simp [hv]
    · simp [hv]

/-- C8: every PromptPlanSet produced by build_from_objects or
build_from_prompts contains at least one plan, and whenever the tier loop
rendered no plan for an object the set is exactly the literal object fallback
plan. -/
theorem plan_sets_nonempty (pb : PromptBuilder) (tierOrder : List PromptTier)
    (refine : RawRecord → PromptSpec → PromptSpec) (objects : List RawRecord)
    (prompts : List String) (idx : Nat) (obj : RawRecord) :
    ((PromptPipeline.buildFromObjects pb tierOrder refine objects).all
        (fun s => !s.plans.isEmpty) = true) ∧
      ((PromptPipeline.buildFromPrompts pb prompts).all (fun s => !s.plans.isEmpty) = true) ∧
      (PromptPipeline.plansForSpec pb tierOrder (PromptPipeline.refinedSpec refine obj idx) ≠ []
        ∨ (PromptPipeline.planSetForObject pb tierOrder refine idx obj).plans =
            [{ label := (PromptPipeline.refinedSpec refine obj idx).label,
               tier := .CORE, text := "object" }]) := by
  refine ⟨?_, ?_, ?_⟩
  · rw [List.all_eq_true]
    intro s hs
    unfold PromptPipeline.buildFromObjects at hs
    obtain ⟨p, _, rfl⟩ := List.mem_map.mp hs
    have := planSetForObject_plans_ne_nil pb tierOrder refine p.1 p.2
    simpa [List.isEmpty_iff] using this
  · rw [List.all_eq_true]
    intro s hs
    unfold PromptPipeline.buildFromPrompts at hs
    obtain ⟨p, _, hp⟩ := List.mem_filterMap.mp hs
    have := promptPlanSetFor_plans_ne_nil pb p s hp
    simpa [List.isEmpty_iff] using this
  · by_cases h : PromptPipeline.plansForSpec pb tierOrder
        (PromptPipeline.refinedSpec refine obj idx) = []
    · right
      unfold PromptPipeline.planSetForObject
      simp [h]
    · left
      exact h

namespace SegmentationService

theorem tryPlans_early_exit_aux (backend : String → DetectionResult) :
    ∀ (plans : List PromptPlan) (i : Nat) (bs : ℚ)
      (best : Option (DetectionResult × PromptPlan)) (calls : Nat),
      bs < EARLY_EXIT_THRESHOLD →
      ∀ (h : i < plans.length),
      (backend (plans.get ⟨i, h⟩).text).boxes_xyxy.length ≠ 0 →
      EARLY_EXIT_THRESHOLD ≤ maxScoreOf (backend (plans.get ⟨i, h⟩).text) →
      (tryPlans backend plans bs best calls).calls ≤ calls + i + 1 := by
  intro plans
  induction plans with
  | nil =>
    intro i bs best calls _ h
    exact absurd h (Nat.not_lt_zero i)
  | cons p rest ih =>
    intro i bs best calls hbs h hne hsc
    by_cases hempty : (backend p.text).boxes_xyxy.length = 0
    · have hstep : tryPlans backend (p :: rest) bs best calls
          = tryPlans backend rest bs best (calls + 1) := by
        simp [tryPlans, hempty]
      rw [hstep]
      cases i with
      | zero => exact absurd hempty (by simpa using hne)
      | succ i =>
        have := ih i bs best (calls + 1) hbs (Nat.lt_of_succ_lt_succ h)
          (by simpa using hne) (by simpa using hsc)
        omega
    · by_cases hlt : bs < maxScoreOf (backend p.text)
      · by_cases hee : EARLY_EXIT_THRESHOLD ≤ maxScoreOf (backend p.text)
        · have hstep : tryPlans backend (p :: rest) bs best calls
              = ⟨some (backend p.text, p), maxScoreOf (backend p.text), calls + 1⟩ := by
            simp [tryPlans, hempty, hlt, hee]
          rw [hstep]
          show calls + 1 ≤ calls + i + 1
          omega
        · have hstep : tryPlans backend (p :: rest) bs best calls
              = tryPlans backend rest (maxScoreOf (backend p.text))
                  (some (backend p.text, p)) (calls + 1) := by
            simp [tryPlans, hempty, hlt, hee]
          rw [hstep]
          cases i with
          | zero => exact absurd (by simpa using hsc) hee
          | succ i =>
            have := ih i (maxScoreOf (backend p.text)) (some (backend p.text, p)) (calls + 1)
              (lt_of_not_le hee) (Nat.lt_of_succ_lt_succ h)
              (by simpa using hne) (by simpa using hsc)
            omega
      · have hstep : tryPlans backend (p :: rest) bs best calls
            = tryPlans backend rest bs best (calls + 1) := by
          simp [tryPlans, hempty, hlt]
        rw [hstep]
        cases i with
        | zero =>
          exact absurd hbs (not_lt_of_le (le_trans (by simpa using hsc) (le_of_not_lt hlt)))
        | succ i =>
          have := ih i bs best (calls + 1) hbs (Nat.lt_of_succ_lt_succ h)
            (by simpa using hne) (by simpa using hsc)
          omega

/-- C6: as soon as one backend call yields a non-empty detection whose
maximum confidence reaches EARLY_EXIT_THRESHOLD (0.85), the per-object loop
issues no further detection calls: when the plan at position i does so, the
total number of calls for the object is at most i plus one, even if plans
remain. -/
theorem early_exit_stops_calls (backend : String → DetectionResult)
    (plans : List PromptPlan) (i : Nat) (h : i < plans.length)
    (hne : (backend (plans.get ⟨i, h⟩).text).boxes_xyxy.length ≠ 0)
    (hsc : EARLY_EXIT_THRESHOLD ≤ maxScoreOf (backend (plans.get ⟨i, h⟩).text)) :
    (tryPlans backend plans 0 none 0).calls ≤ i + 1 := by
  have h0 : (0 : ℚ) < EARLY_EXIT_THRESHOLD := by norm_num [EARLY_EXIT_THRESHOLD]
  have := tryPlans_early_exit_aux backend plans i 0 none 0 h0 h hne hsc
  simpa using this

/-- Witness for the early-exit claim: on the fixture where the second variant
scores nine tenths, at most two calls are issued for three plans. -/
theorem early_exit_stops_calls_witness :
    (tryPlans backB plans3 0 none 0).calls ≤ 2 := by
  exact early_exit_stops_calls backB plans3 1 (by decide) (by decide) (by decide)

/-- C2 (amended): with variants v1, v2, v3 where only v2 yields a non-empty
detection with a positive maximum score, the loop selects v2's result, and
issues exactly 2 backend calls when v2 reaches the early-exit threshold but
all 3 calls otherwise. -/
theorem second_variant_selected (backend : String → DetectionResult) (v1 v2 v3 : PromptPlan)
    (h1 : (backend v1.text).boxes_xyxy.length = 0)
    (h3 : (backend v3.text).boxes_xyxy.length = 0)
    (h2 : (backend v2.text).boxes_xyxy.length ≠ 0)
    (hpos : 0 < maxScoreOf (backend v2.text)) :
    (tryPlans backend [v1, v2, v3] 0 none 0).best = some (backend v2.text, v2) ∧
      (tryPlans backend [v1, v2, v3] 0 none 0).calls =
        (if EARLY_EXIT_THRESHOLD ≤ maxScoreOf (backend v2.text) then 2 else 3) := by
  by_cases hee : EARLY_EXIT_THRESHOLD ≤ maxScoreOf (backend v2.text)
  · constructor <;> simp [tryPlans, h1, h2, h3, hpos, hee]
  · constructor <;> simp [tryPlans, h1, h2, h3, hpos, hee]

/-- Witness for the amended two-or-three-call claim on the fixture where v2
scores one half: three calls, v2 selected. -/
theorem second_variant_selected_witness :
    (tryPlans backA plans3 0 none 0).best = some (backA "t2", mkPlan "t2") ∧
      (tryPlans backA plans3 0 none 0).calls =
        (if EARLY_EXIT_THRESHOLD ≤ maxScoreOf (backA "t2") then 2 else 3) :=
  second_variant_selected backA (mkPlan "t1") (mkPlan "t2") (mkPlan "t3")
    (by decide) (by decide) (by decide) (by decide)

/-- Counterexample to C2 as stated: the claim asserts exactly 2 backend calls
for the empty, hit, empty response pattern, but with the hit scoring one half
the loop issues all 3 calls (it only stops early at the 0.85 threshold). -/
theorem three_calls_counterexample :
    (tryPlans backA plans3 0 none 0).calls = 3 ∧
      (tryPlans backA plans3 0 none 0).calls ≠ 2 := by
  constructor <;> decide

theorem tryPlans_all_low (backend : String → DetectionResult) :
    ∀ (seg : List PromptPlan) (bs : ℚ) (best : Option (DetectionResult × PromptPlan))
      (calls : Nat),
      bs < EARLY_EXIT_THRESHOLD →
      (∀ q ∈ seg, effScore backend q ≤ bs) →
      tryPlans backend seg bs best calls = ⟨best, bs, calls + seg.length⟩ := by
  intro seg
  induction seg with
  | nil => intro bs best calls _ _; rfl
  | cons q seg' ih =>
    intro bs best calls hbs hlow
    have hq := hlow q (List.mem_cons_self q seg')
    have harith : calls + 1 + seg'.length = calls + (q :: seg').length := by
      simp [List.length_cons]
      omega
    by_cases hempty : (backend q.text).boxes_xyxy.length = 0
    · have hstep : tryPlans backend (q :: seg') bs best calls
          = tryPlans backend seg' bs best (calls + 1) := by
        simp [tryPlans, hempty]
      rw [hstep, ih bs best (calls + 1) hbs
        (fun r hr => hlow r (List.mem_cons_of_mem q hr)), harith]
    · have heff : effScore backend q = maxScoreOf (backend q.text) := by
        simp [effScore, hempty]
      have hnlt : ¬ bs < maxScoreOf (backend q.text) := by
        rw [← heff]
        exact not_lt_of_le hq
      have hstep : tryPlans backend (q :: seg') bs best calls
          = tryPlans backend seg' bs best (calls + 1) := by
        simp [tryPlans, hempty, hnlt]
      rw [hstep, ih bs best (calls + 1) hbs
        (fun r hr => hlow r (List.mem_cons_of_mem q hr)), harith]

theorem tryPlans_first_max_aux (backend : String → DetectionResult) :
    ∀ (pre : List PromptPlan) (p : PromptPlan) (post : List PromptPlan) (bs : ℚ)
      (best : Option (DetectionResult × PromptPlan)) (calls : Nat),
      bs < maxScoreOf (backend p.text) →
      bs < EARLY_EXIT_THRESHOLD →
      (backend p.text).boxes_xyxy.length ≠ 0 →
      (∀ q ∈ pre, effScore backend q < maxScoreOf (backend p.text)
        ∧ effScore backend q < EARLY_EXIT_THRESHOLD) →
      (∀ q ∈ post, effScore backend q ≤ maxScoreOf (backend p.text)) →
      (tryPlans backend (pre ++ p :: post) bs best calls).best = some (backend p.text, p) ∧
        (tryPlans backend (pre ++ p :: post) bs best calls).bestScore
          = maxScoreOf (backend p.text) := by
  intro pre
  induction pre with
  | nil =>
    intro p post bs best calls hbs hbsEE hne hpre hpost
    by_cases hee : EARLY_EXIT_THRESHOLD ≤ maxScoreOf (backend p.text)
    · have hstep : tryPlans backend ([] ++ p :: post) bs best calls
          = ⟨some (backend p.text, p), maxScoreOf (backend p.text), calls + 1⟩ := by
        simp [tryPlans, hne, hbs, hee]
      rw [hstep]
      exact ⟨rfl, rfl⟩
    · have hstep : tryPlans backend ([] ++ p :: post) bs best calls
          = tryPlans backend post (maxScoreOf (backend p.text))
              (some (backend p.text, p)) (calls + 1) := by
        simp [tryPlans, hne, hbs, hee]
      rw [hstep]
      rw [tryPlans_all_low backend post (maxScoreOf (backend p.text))
        (some (backend p.text, p)) (calls + 1) (lt_of_not_le hee) hpost]
      exact ⟨rfl, rfl⟩
  | cons q pre' ih =>
    intro p post bs best calls hbs hbsEE hne hpre hpost
    have hq := hpre q (List.mem_cons_self q pre')
    have hpre' : ∀ r ∈ pre', effScore backend r < maxScoreOf (backend p.text)
        ∧ effScore backend r < EARLY_EXIT_THRESHOLD :=
      fun r hr => hpre r (List.mem_cons_of_mem q hr)
    by_cases hempty : (backend q.text).boxes_xyxy.length = 0
    · have hstep : tryPlans backend ((q :: pre') ++ p :: post) bs best calls
          = tryPlans backend (pre' ++ p :: post) bs best (calls + 1) := by
        simp [tryPlans, hempty]
      rw [hstep]
      exact ih p post bs best (calls + 1) hbs hbsEE hne hpre' hpost
    · have heff : effScore backend q = maxScoreOf (backend q.text) := by
        simp [effScore, hempty]
      by_cases hlt : bs < maxScoreOf (backend q.text)
      · have hqEE : maxScoreOf (backend q.text) < EARLY_EXIT_THRESHOLD := by
          rw [← heff]
          exact hq.2
        have hnee : ¬ EARLY_EXIT_THRESHOLD ≤ maxScoreOf (backend q.text) := not_le_of_lt hqEE
        have hstep : tryPlans backend ((q :: pre') ++ p :: post) bs best calls
            = tryPlans backend (pre' ++ p :: post) (maxScoreOf (backend q.text))
                (some (backend q.text, q)) (calls + 1) := by
          simp [tryPlans, hempty, hlt, hnee]
        rw [hstep]
        exact ih p post (maxScoreOf (backend q.text)) (some (backend q.text, q)) (calls + 1)
          (heff ▸ hq.1) hqEE hne hpre' hpost
      · have hstep : tryPlans backend ((q :: pre') ++ p :: post) bs best calls
            = tryPlans backend (pre' ++ p :: post) bs best (calls + 1) := by
          simp [tryPlans, hempty, hlt]
        rw [hstep]
        exact ih p post bs best (calls + 1) hbs hbsEE hne hpre' hpost

/-- C10: the best detection is updated only on a strictly greater maximum
score, so when the plan p is the earliest one attaining the running maximum
(all earlier plans score strictly below it and stay under the early-exit
threshold, later plans may tie), the loop selects p and its result, and every
prompt-info row the object contributes records p's tier value and prompt
text. -/
theorem first_max_selected (backend : String → DetectionResult) (lbl : String)
    (pre post : List PromptPlan) (p : PromptPlan) (objIdx : Nat)
    (hne : (backend p.text).boxes_xyxy.length ≠ 0)
    (hpos : 0 < maxScoreOf (backend p.text))
    (hpre : ∀ q ∈ pre, effScore backend q < maxScoreOf (backend p.text)
      ∧ effScore backend q < EARLY_EXIT_THRESHOLD)
    (hpost : ∀ q ∈ post, effScore backend q ≤ maxScoreOf (backend p.text)) :
    (tryPlans backend (pre ++ p :: post) 0 none 0).best = some (backend p.text, p) ∧
      (tryPlans backend (pre ++ p :: post) 0 none 0).bestScore = maxScoreOf (backend p.text) ∧
      ∀ info ∈ (processObject backend objIdx ⟨lbl, pre ++ p :: post⟩).2,
        info.tier = p.tier.value ∧ info.text = p.text := by
  have h0EE : (0 : ℚ) < EARLY_EXIT_THRESHOLD := by decide
  have hmain := tryPlans_first_max_aux backend pre p post 0 none 0 hpos h0EE hne hpre hpost
  refine ⟨hmain.1, hmain.2, ?_⟩
  intro info hinfo
  simp only [processObject, hmain.1] at hinfo
  split at hinfo
  · obtain ⟨_, _, rfl⟩ := List.mem_map.mp hinfo
    exact ⟨rfl, rfl⟩
  · simp at hinfo

/-- Witness for the earliest-maximum selection claim: on the tie fixture both
answered variants score one half and the first one is selected, tagging the
prompt info with its tier and text. -/
theorem first_max_selected_witness :
    (tryPlans backD ([] ++ mkPlan "t1" :: [mkPlan "t2", mkPlan "t3"]) 0 none 0).best
        = some (backD (mkPlan "t1").text, mkPlan "t1") ∧
      (tryPlans backD ([] ++ mkPlan "t1" :: [mkPlan "t2", mkPlan "t3"]) 0 none 0).bestScore
        = maxScoreOf (backD (mkPlan "t1").text) ∧
      ∀ info ∈ (processObject backD 7 ⟨"obj", [] ++ mkPlan "t1" :: [mkPlan "t2", mkPlan "t3"]⟩).2,
        info.tier = (mkPlan "t1").tier.value ∧ info.text = (mkPlan "t1").text :=
  first_max_selected backD "obj" [] [mkPlan "t2", mkPlan "t3"] (mkPlan "t1") 7
    (by decide) (by decide) (by decide) (by decide)

theorem maxScoreOf_relabel (r : DetectionResult) (lbl : String) :
    maxScoreOf (relabelDetection r lbl) = maxScoreOf r := rfl

theorem tryPlans_bestScore_eq (backend : String → DetectionResult) :
    ∀ (plans : List PromptPlan) (bs : ℚ) (best : Option (DetectionResult × PromptPlan))
      (calls : Nat),
      (∀ r p, best = some (r, p) → bs = maxScoreOf r) →
      ∀ r p, (tryPlans backend plans bs best calls).best = some (r, p) →
        (tryPlans backend plans bs best calls).bestScore = maxScoreOf r := by
  intro plans
  induction plans with
  | nil =>
    intro bs best calls hinv r p hb
    exact hinv r p hb
  | cons q rest ih =>
    intro bs best calls hinv r p hb
    by_cases hempty : (backend q.text).boxes_xyxy.length = 0
    · have hstep : tryPlans backend (q :: rest) bs best calls
          = tryPlans backend rest bs best (calls + 1) := by
        simp [tryPlans, hempty]
      rw [hstep] at hb ⊢
      exact ih bs best (calls + 1) hinv r p hb
    · by_cases hlt : bs < maxScoreOf (backend q.text)
      · by_cases hee : EARLY_EXIT_THRESHOLD ≤ maxScoreOf (backend q.text)
        · have hstep : tryPlans backend (q :: rest) bs best calls
              = ⟨some (backend q.text, q), maxScoreOf (backend q.text), calls + 1⟩ := by
            simp [tryPlans, hempty, hlt, hee]
          rw [hstep] at hb ⊢
          simp only [Option.some.injEq, Prod.mk.injEq] at hb
          rw [← hb.1]
        · have hstep : tryPlans backend (q :: rest) bs best calls
              = tryPlans backend rest (maxScoreOf (backend q.text))
                  (some (backend q.text, q)) (calls + 1) := by
            simp [tryPlans, hempty, hlt, hee]
          rw [hstep] at hb ⊢
          refine ih (maxScoreOf (backend q.text)) (some (backend q.text, q)) (calls + 1)
            ?_ r p hb
          intro r' p' h'
          simp only [Option.some.injEq, Prod.mk.injEq] at h'
          rw [h'.1]
      · have hstep : tryPlans backend (q :: rest) bs best calls
            = tryPlans backend rest bs best (calls + 1) := by
          simp [tryPlans, hempty, hlt]
        rw [hstep] at hb ⊢
        exact ih bs best (calls + 1) hinv r p hb

/-- C1 (amended): the acceptance gate is applied to the best call's maximum
score, not to every row: a detection result accepted for an object has
max(scores) at least MIN_CONFIDENCE_THRESHOLD (individual rows in it may
score lower), and an object whose best score is below the floor contributes
no result and no prompt-info rows. -/
theorem acceptance_gate_max_score (backend : String → DetectionResult) (objIdx : Nat)
    (pset : PromptPlanSet) :
    (∀ r, (processObject backend objIdx pset).1 = some r →
        MIN_CONFIDENCE_THRESHOLD ≤ maxScoreOf r) ∧
      ((tryPlans backend pset.plans 0 none 0).bestScore < MIN_CONFIDENCE_THRESHOLD →
        processObject backend objIdx pset = (none, [])) := by
  constructor
  · intro r hr
    simp only [processObject] at hr
    cases hbest : (tryPlans backend pset.plans 0 none 0).best with
    | none =>
      rw [hbest] at hr
      simp at hr
    | some rp =>
      obtain ⟨result, plan⟩ := rp
      rw [hbest] at hr
      by_cases hmin : MIN_CONFIDENCE_THRESHOLD ≤ (tryPlans backend pset.plans 0 none 0).bestScore
      · simp only [hmin, if_true, Option.some.injEq] at hr
        have hscore := tryPlans_bestScore_eq backend pset.plans 0 none 0
          (by intro r' p' h'; simp at h') result plan hbest
        rw [← hr, maxScoreOf_relabel, ← hscore]
        exact hmin
      · simp [hmin] at hr
  · intro hlt
    simp only [processObject]
    cases hbest : (tryPlans backend pset.plans 0 none 0).best with
    | none => simp [hbest]
    | some rp =>
      obtain ⟨result, plan⟩ := rp
      simp [hbest, not_le_of_lt hlt]

/-- Witness for the amended acceptance-gate claim: the fixture whose best
response scores one half is accepted with max score above the floor, and the
fixture scoring one quarter contributes nothing. -/
theorem acceptance_gate_max_score_witness :
    MIN_CONFIDENCE_THRESHOLD ≤ maxScoreOf ((processObject backC 0 ⟨"obj", plans3⟩).1.getD emptyR)
      ∧ processObject backE 0 ⟨"obj", plans3⟩ = (none, []) :=
  ⟨(acceptance_gate_max_score backC 0 ⟨"obj", plans3⟩).1 _ (by decide),
   (acceptance_gate_max_score backE 0 ⟨"obj", plans3⟩).2 (by decide)⟩

/-- Counterexample to C1 as stated: an accepted backend response carrying two
rows with scores one half and one tenth puts a row scoring one tenth, below
the 0.4 floor, into the combined result. -/
theorem low_score_row_in_combined :
    mkRat 1 10 ∈ (runTieredDetection backC [⟨"obj", plans3⟩]).1.scores ∧
      mkRat 1 10 < MIN_CONFIDENCE_THRESHOLD := by
  constructor <;> decide

/-- C3 (amended): with positive image dimensions the sanitized box satisfies
all the lower bounds and the width and height caps on x2 and y2, and the
ordering of x1 and x2 (resp. y1 and y2) holds whenever x1 does not exceed the
image width (resp. y1 the height); x1 and y1 themselves are not capped, so a
raw x1 beyond the image width yields x1 greater than x2. -/
theorem clamp_box_bounds (box : RawBox) (W H : Int) (hW : 0 < W) (hH : 0 < H) :
    0 ≤ (clampBox box W H).x1 ∧ 0 ≤ (clampBox box W H).y1 ∧
      0 ≤ (clampBox box W H).x2 ∧ 0 ≤ (clampBox box W H).y2 ∧
      (clampBox box W H).x2 ≤ (W : ℚ) ∧ (clampBox box W H).y2 ≤ (H : ℚ) ∧
      ((clampBox box W H).x1 ≤ (W : ℚ) → (clampBox box W H).x1 ≤ (clampBox box W H).x2) ∧
      ((clampBox box W H).y1 ≤ (H : ℚ) → (clampBox box W H).y1 ≤ (clampBox box W H).y2) := by
  have heq : clampBox box W H =
      { x1 := max 0 (pyVal box.x1)
        y1 := max 0 (pyVal box.y1)
        x2 := min (max (max 0 (pyVal box.x1)) (pyVal box.x2)) (W : ℚ)
        y2 := min (max (max 0 (pyVal box.y1)) (pyVal box.y2)) (H : ℚ) } := by
    unfold clampBox sanitizeCoord
    simp [hW, hH]
  rw [heq]
  refine ⟨le_max_left 0 _, le_max_left 0 _, ?_, ?_, min_le_right _ _, min_le_right _ _, ?_, ?_⟩
  · exact le_min (le_trans (le_max_left 0 _) (le_max_left _ _)) (by exact_mod_cast hW.le)
  · exact le_min (le_trans (le_max_left 0 _) (le_max_left _ _)) (by exact_mod_cast hH.le)
  · intro hx
    exact le_min (le_max_left _ _) hx
  · intro hy
    exact le_min (le_max_left _ _) hy

/-- Witness for the amended clamping claim at the spec's own example: the raw
box with entries negative five, ten, a large x2 and twenty on a 640 by 480
image satisfies every stated bound. -/
theorem clamp_box_bounds_witness :
    0 ≤ (clampBox ⟨.fin (-5), .fin 10, .fin 9999, .fin 20⟩ 640 480).x1 ∧
      0 ≤ (clampBox ⟨.fin (-5), .fin 10, .fin 9999, .fin 20⟩ 640 480).y1 ∧
      0 ≤ (clampBox ⟨.fin (-5), .fin 10, .fin 9999, .fin 20⟩ 640 480).x2 ∧
      0 ≤ (clampBox ⟨.fin (-5), .fin 10, .fin 9999, .fin 20⟩ 640 480).y2 ∧
      (clampBox ⟨.fin (-5), .fin 10, .fin 9999, .fin 20⟩ 640 480).x2 ≤ ((640 : Int) : ℚ) ∧
      (clampBox ⟨.fin (-5), .fin 10, .fin 9999, .fin 20⟩ 640 480).y2 ≤ ((480 : Int) : ℚ) ∧
      ((clampBox ⟨.fin (-5), .fin 10, .fin 9999, .fin 20⟩ 640 480).x1 ≤ ((640 : Int) : ℚ) →
        (clampBox ⟨.fin (-5), .fin 10, .fin 9999, .fin 20⟩ 640 480).x1
          ≤ (clampBox ⟨.fin (-5), .fin 10, .fin 9999, .fin 20⟩ 640 480).x2) ∧
      ((clampBox ⟨.fin (-5), .fin 10, .fin 9999, .fin 20⟩ 640 480).y1 ≤ ((480 : Int) : ℚ) →
        (clampBox ⟨.fin (-5), .fin 10, .fin 9999, .fin 20⟩ 640 480).y1
          ≤ (clampBox ⟨.fin (-5), .fin 10, .fin 9999, .fin 20⟩ 640 480).y2) :=
  clamp_box_bounds ⟨.fin (-5), .fin 10, .fin 9999, .fin 20⟩ 640 480 (by decide) (by decide)

/-- Counterexample to C3 as stated: a raw x1 of 9999 on a 640 by 480 image is
floored at zero but never capped, so the emitted box has x1 greater than x2
and greater than the image width. -/
theorem clamp_box_x1_exceeds_x2 :
    ¬ ((clampBox ⟨.fin 9999, .fin 0, .fin 10000, .fin 10⟩ 640 480).x1
        ≤ (clampBox ⟨.fin 9999, .fin 0, .fin 10000, .fin 10⟩ 640 480).x2) ∧
      (640 : ℚ) < (clampBox ⟨.fin 9999, .fin 0, .fin 10000, .fin 10⟩ 640 480).x1 := by
  constructor <;> decide

end SegmentationService

theorem dedupFull_error_fallback {γ : Type} [Inhabited γ] (thresh semThresh : ℚ)
    (encode : List String → Except Unit (List γ)) (sim : γ → γ → ℚ) (phrases : List String)
    (herr : encode phrases = .error ()) :
    DescriptorDeduper.dedupFull thresh semThresh encode sim phrases
      = DescriptorDeduper.dedup thresh phrases := by
  unfold DescriptorDeduper.dedupFull DescriptorDeduper.dedup
  by_cases h : phrases = []
  · subst h
    simp [DescriptorDeduper.dedupGo]
  · simp [h, herr]

theorem refine_error_propagates (parse : String → Except Unit SemanticRefiner.SDoc)
    (dedupFn : List String → List String) (raw : RawRecord) (spec : PromptSpec)
    (hdesc : PyStr.pystrip ((raw.truthyGet "description").getD "") ≠ "")
    (herr : parse (PyStr.pystrip ((raw.truthyGet "description").getD "")) = .error ()) :
    SemanticRefiner.refine parse dedupFn raw spec = .error () := by
  unfold SemanticRefiner.refine
  rw [if_pos hdesc]
  unfold SemanticRefiner.refineFromDescription
  rw [herr]
  rfl

/-- C5 (amended): the two optional stages behave differently on failure.  A
throwing embedding model is caught inside the deduper, which falls back to
token-only comparison for the remainder of the call; but a throwing or
unavailable NLP parser is not caught anywhere in SemanticRefiner.refine, so
the failure propagates out of the enrichment stage instead of degrading to
the deterministic output. -/
theorem enrichment_failure_isolation :
    (∀ (γ : Type) [Inhabited γ] (thresh semThresh : ℚ)
        (encode : List String → Except Unit (List γ)) (sim : γ → γ → ℚ)
        (phrases : List String), encode phrases = .error () →
        DescriptorDeduper.dedupFull thresh semThresh encode sim phrases
          = DescriptorDeduper.dedup thresh phrases) ∧
      (∀ (parse : String → Except Unit SemanticRefiner.SDoc)
        (dedupFn : List String → List String) (raw : RawRecord) (spec : PromptSpec),
        PyStr.pystrip ((raw.truthyGet "description").getD "") ≠ "" →
        parse (PyStr.pystrip ((raw.truthyGet "description").getD "")) = .error () →
        SemanticRefiner.refine parse dedupFn raw spec = .error ()) :=
  ⟨fun _ _ thresh semThresh encode sim phrases herr =>
    dedupFull_error_fallback thresh semThresh encode sim phrases herr,
   fun parse dedupFn raw spec hdesc herr =>
    refine_error_propagates parse dedupFn raw spec hdesc herr⟩

/-- Witness for the failure-isolation claim: a failing batch encoder leaves
dedup equal to the token-only dedup, and a failing parser makes refine return
the error. -/
theorem enrichment_failure_isolation_witness :
    DescriptorDeduper.dedupFull (mkRat 6 10) (mkRat 9 10)
        (fun _ => (Except.error () : Except Unit (List Unit))) (fun _ _ => 0)
        ["red car", "big red car"]
      = DescriptorDeduper.dedup (mkRat 6 10) ["red car", "big red car"] ∧
      SemanticRefiner.refine (fun _ => Except.error ()) (fun l => l)
        [("description", some "a ball")] ⟨"b", "a ball", [], [], [], []⟩ = Except.error () :=
  ⟨enrichment_failure_isolation.1 Unit (mkRat 6 10) (mkRat 9 10)
    (fun _ => (Except.error () : Except Unit (List Unit))) (fun _ _ => 0)
    ["red car", "big red car"] rfl,
   enrichment_failure_isolation.2 (fun _ => Except.error ()) (fun l => l)
    [("description", some "a ball")] ⟨"b", "a ball", [], [], [], []⟩ (by decide) rfl⟩

/-- Counterexample to C5 as stated: with an unavailable or throwing NLP
parser, SemanticRefiner.refine on a record carrying a description does not
fall back to the deterministic spec, it returns the propagated failure. -/
theorem refine_parser_error_propagates_cx :
    SemanticRefiner.refine (fun _ => Except.error ()) (fun l => l)
        [("description", some "x")] ⟨"x", "x", [], [], [], []⟩ = Except.error () := rfl

end Penguin
